import Mathlib

/-!
# MultiOSD console commands: a shallow embedding of `firmware/commands.cpp`

The console handlers of the firmware are embedded as functions on an explicit
machine state.  A result of type `Option` is `none` exactly when the C++ code
does not return: it spins on an exhausted receive stream, loops for ever, or
dereferences a null pointer.

Conventions
* `uint8_t`, `uint16_t` values are natural numbers, reduced `% 256` and
  `% 65536` wherever the C++ code narrows a value;
* C strings are `List Char`; reading past the end yields the NUL character;
* collaborators that are not part of `commands.cpp` (settings store, video
  chip, telemetry and panel registries, configuration constants) are gathered
  in the structure `Extern`.
-/

set_option autoImplicit false
set_option linter.dupNamespace false

/-! ## Machine state -/

namespace max7456

/-- Calls made into the MAX7456 driver that change the chip. -/
inductive call where
  | clear : call
  | put : Nat → Nat → Nat → call
  | upload_char : Nat → List Nat → call
  deriving DecidableEq, Repr

end max7456

/-- State the console handlers act on. -/
structure State where
  /-- results that successive calls of `CONSOLE_UART::receive ()` will return -/
  rx : List Nat
  /-- characters handed to `CONSOLE_UART::send`, oldest first -/
  tx : List Char
  /-- the line buffer of the console, holding the command being processed -/
  line : List Char
  /-- `console::running` -/
  running : Bool
  /-- non-volatile memory, by address -/
  eeprom : Nat → Nat
  /-- what `max7456::download_char` reads from the character memory of the video chip:
  glyph index, then byte index -/
  glyphs : Nat → Nat → Nat
  /-- log of the calls made into the video chip driver, oldest first -/
  osd : List max7456.call

/-! ## Loops -/

/-- Runs `body i` for `i = start, start + 1, ..., start + n - 1`; every step returns. -/
def loop {σ : Type} (body : Nat → σ → σ) : Nat → Nat → σ → σ
  | _, 0, s => s
  | start, n + 1, s => loop body (start + 1) n (body start s)

/-- Runs `body i` for `i = start, ..., start + n - 1`; stops with `none` as soon as a step
does not return. -/
def loopM {σ : Type} (body : Nat → σ → Option σ) : Nat → Nat → σ → Option σ
  | _, 0, s => some s
  | start, n + 1, s => (body start s).bind (loopM body (start + 1) n)

/-- The loop `for (uint8_t i = 0; i < bound; i ++) body`.  When `bound` exceeds 255 the
counter wraps to 0 before it can reach the bound, so the loop never exits. -/
def for_u8 {σ : Type} (bound : Nat) (body : Nat → σ → Option σ) (s : σ) : Option σ :=
  if bound ≤ 255 then loopM body 0 bound s else none

/-- The loop `for (uint16_t i = 0; i < bound; i ++) body`; it never exits when `bound`
exceeds 65535. -/
def for_u16 {σ : Type} (bound : Nat) (body : Nat → σ → Option σ) (s : σ) : Option σ :=
  if bound ≤ 65535 then loopM body 0 bound s else none

/-! ## Transport and console primitives -/

namespace CONSOLE_UART

/-- `send (c)`: queues one character for transmission. -/
def send (c : Char) (s : State) : State :=
  { s with tx := s.tx ++ [c] }

/-- `send_string (s)` and `send_string_p (s)`: send every character of a string. -/
def send_string (str : List Char) (s : State) : State :=
  { s with tx := s.tx ++ str }

end CONSOLE_UART

namespace console

/-- `uint8_t read ()`: polls `CONSOLE_UART::receive ()` until a result has no bit of
the high byte set, and returns it narrowed to `uint8_t`.  The polling never ends when the
receive stream holds no such result. -/
def read : List Nat → Option (Nat × List Nat)
  | [] => none
  | r :: rest =>
    let c := r % 65536
    if c &&& 0xff00 = 0 then some (c % 256, rest) else read rest

/-- Modelled from the spec: `console::eol ()`, declared in `lib/console/console.h` and
defined outside the files at hand, sends the line terminator; it is the carriage return
and line feed pair that `font::read_byte` skips and that ends the literal header line. -/
def eol (s : State) : State :=
  CONSOLE_UART.send_string ['\r', '\n'] s

end console

/-! ## Collaborators outside `commands.cpp` -/

namespace settings

/-- Type tag of an option; the declaration order is the index into `opt::types`. -/
inductive option_type where
  | ot_bool | ot_uint8 | ot_uint16 | ot_uint32 | ot_float | ot_str
  deriving DecidableEq, Repr

/-- Index of a type tag, as used to subscript `opt::types`. -/
def option_type.toNat : option_type → Nat
  | .ot_bool => 0
  | .ot_uint8 => 1
  | .ot_uint16 => 2
  | .ot_uint32 => 3
  | .ot_float => 4
  | .ot_str => 5

/-- Option descriptor `settings::option_t`, with the fields `opt::display` reads. -/
structure option_t where
  name_p : List Char
  addr : Nat
  type : option_type
  size : Nat
  deriving DecidableEq, Repr

end settings

/-- What `commands.cpp` uses and does not define: configuration constants, the settings
store, the registries of telemetry modules and OSD panels, and the parts of the C library
whose result is left to the implementation.  The settings store lives in the EEPROM, so
its operations act on the memory contents. -/
structure Extern where
  /-- `EEPROM_SIZE` -/
  EEPROM_SIZE : Nat
  /-- `VERSION` -/
  VERSION : Nat
  /-- `max7456::hcenter` -/
  hcenter : Nat
  /-- `settings::sections`: per section its options; `sections_count` is the length -/
  sections : List (List settings.option_t)
  /-- `settings::get_option (name)`; `none` is the null pointer -/
  get_option : List Char → Option settings.option_t
  read_bool_option : (Nat → Nat) → settings.option_t → Bool
  read_uint8_option : (Nat → Nat) → settings.option_t → Nat
  read_uint16_option : (Nat → Nat) → settings.option_t → Nat
  read_uint32_option : (Nat → Nat) → settings.option_t → Nat
  /-- text that the conversion `%0.4f` gives for `settings::read_float_option (option)` -/
  read_float_text : (Nat → Nat) → settings.option_t → List Char
  read_str_option : (Nat → Nat) → settings.option_t → List Char
  write_bool_option : (Nat → Nat) → List Char → Bool → Nat → Nat
  write_uint8_option : (Nat → Nat) → List Char → Nat → Nat → Nat
  write_uint16_option : (Nat → Nat) → List Char → Nat → Nat → Nat
  write_uint32_option : (Nat → Nat) → List Char → Nat → Nat → Nat
  /-- `settings::write_float_option (name, atof (value))`, as a function of the text -/
  write_float_text : (Nat → Nat) → List Char → List Char → Nat → Nat
  write_str_option : (Nat → Nat) → List Char → List Char → Nat → Nat
  /-- `settings::reset ()` -/
  settings_reset : (Nat → Nat) → Nat → Nat
  /-- names of the telemetry modules; `telemetry::modules::count` is the length -/
  modules : List (List Char)
  /-- names of the OSD panels; `osd::panel::count` is the length -/
  panels : List (List Char)
  /-- text that the conversion `%03p` gives for an address -/
  fmt_p : Nat → List Char
  /-- `console::argument (n)` on the line buffer: the text from the start of token `n` to
  the end of the line; `none` is the null pointer, returned when the token is absent -/
  argument : List Char → Nat → Option (List Char)
  /-- `console::read_argument (arg, dest)`: the text stored in `dest` -/
  read_argument : List Char → List Char

/-! ## `namespace console::commands::font` -/

namespace console.commands.font

def command : List Char := "font".toList
def help : List Char := "Upload and download mcm-file".toList

/-- `draw ()`: clears the screen and puts the 256 glyphs on it in a 16 by 16 square. -/
def draw (env : Extern) (s : State) : State :=
  let left := (env.hcenter % 256 + 256 - 8) % 256
  let s1 : State := { s with osd := s.osd ++ [max7456.call.clear] }
  loop (fun h s2 =>
    loop (fun l s3 =>
      { s3 with osd := s3.osd ++ [max7456.call.put ((left + l) % 256) h ((h <<< 4) ||| l)] })
      0 0x10 s2)
    0 0x10 s1

/-- `print_byte (b)`: for `i = 0 .. 7` sends `'1'` when `(b >> i) & 1` is set and `'0'`
otherwise, then calls `eol ()`. -/
def print_byte (b : Nat) (s : State) : State :=
  console.eol
    (loop (fun i s1 => CONSOLE_UART.send (if (b >>> i) &&& 1 ≠ 0 then '1' else '0') s1) 0 8 s)

/-- `download ()`. `max7456::download_char (c, data)` fills `data` with the 54 bytes of
glyph `c` held by the chip. -/
def download (env : Extern) (s : State) : State :=
  let s1 := CONSOLE_UART.send_string "MAX7456\r\n".toList (draw env s)
  loop (fun c s2 =>
    let data : Nat → Nat := fun i => s2.glyphs c i % 256
    let s3 := loop (fun i s4 => print_byte (data i) s4) 0 54 s2
    loop (fun _ s4 => print_byte 0 s4) 0 10 s3)
    0 0x100 s1

/-- One step of the loop of `read_byte`, on the accumulator `res` and the receive stream:
`res = (res << 1) | ((console::read () - '0') & 1)`.  The subtraction is made on a 16-bit
`int` and the result is narrowed to `uint8_t`. -/
def read_bit (_ : Nat) (p : Nat × List Nat) : Option (Nat × List Nat) :=
  (console.read p.2).map fun q =>
    (((p.1 <<< 1) ||| (((q.1 + 65536 - 48) % 65536) &&& 1)) % 256, q.2)

/-- `read_byte ()`: eight steps `read_bit` from `res = 0`, then two more characters are
read and dropped. -/
def read_byte (rx : List Nat) : Option (Nat × List Nat) :=
  (loopM read_bit 0 8 (0, rx)).bind fun p =>
    (console.read p.2).bind fun q1 =>
      (console.read q1.2).map fun q2 => (p.1, q2.2)

/-- The step `read ()` of the first loop of `upload`: one character is read and dropped. -/
def upload_skip (_ : Nat) (s : State) : Option State :=
  (console.read s.rx).map fun q => { s with rx := q.2 }

/-- The step `data [i] = read_byte ()` of `upload`, on the array and the state. -/
def upload_data (i : Nat) (p : List Nat × State) : Option (List Nat × State) :=
  (read_byte p.2.rx).map fun q => (p.1.set i q.1, { p.2 with rx := q.2 })

/-- The step `read_byte ()` of `upload` whose result is dropped. -/
def upload_trailing (_ : Nat) (s : State) : Option State :=
  (read_byte s.rx).map fun q => { s with rx := q.2 }

/-- The body of the loop of `upload` over the glyphs.  The array `data` is not
initialised in the C++ code and every one of its 54 elements is assigned before it is
used; it starts as 54 zeros here.  The call `max7456::upload_char (c, data)` is logged
with its arguments; what the driver then does to the character memory is outside
`commands.cpp`. -/
def upload_glyph (c : Nat) (s : State) : Option State :=
  (loopM upload_data 0 54 (List.replicate 54 0, s)).bind fun p =>
    (loopM upload_trailing 0 10 p.2).map fun s1 =>
      { s1 with osd := s1.osd ++ [max7456.call.upload_char c p.1] }

/-- `upload ()`. -/
def upload (env : Extern) (s : State) : Option State :=
  let s1 := CONSOLE_UART.send_string "Send MCM-file\r\n".toList (draw env s)
  (loopM upload_skip 0 9 s1).bind fun s2 =>
    (loopM upload_glyph 0 0x100 s2).map fun s3 =>
      CONSOLE_UART.send_string "Done.\r\n".toList s3

end console.commands.font


/-! ## Formatted output -/

namespace stdio

/-- Pads a numeral with zeros on the left up to `width` characters. -/
def zero_pad (width : Nat) (digits : List Char) : List Char :=
  List.replicate (width - digits.length) '0' ++ digits

/-- The conversion `%u` of `fprintf_P`: an `unsigned int` (16 bits) in decimal. -/
def fmt_u (v : Nat) : List Char :=
  Nat.toDigits 10 (v % 65536)

/-- The conversions `%03u` and `%04u`. -/
def fmt_0u (width : Nat) (v : Nat) : List Char :=
  zero_pad width (Nat.toDigits 10 (v % 65536))

/-- The conversions `%02x` and `%04x`: an `unsigned int` in lower-case hexadecimal,
padded with zeros. -/
def fmt_0x (width : Nat) (v : Nat) : List Char :=
  zero_pad width (Nat.toDigits 16 (v % 65536))

/-- The value of a 32-bit pattern read as a signed `long`. -/
def to_long (v : Nat) : Int :=
  if v % 4294967296 < 2147483648 then (v % 4294967296 : Nat) else (v % 4294967296 : Nat) - 4294967296

/-- `ltoa (value, buf, 10)`: a signed `long` in decimal, with a minus sign when negative. -/
def ltoa (value : Int) : List Char :=
  if value < 0 then '-' :: Nat.toDigits 10 value.natAbs else Nat.toDigits 10 value.natAbs

/-- `isspace` of the C locale. -/
def isspace (c : Char) : Bool :=
  c = ' ' || (9 ≤ c.toNat && c.toNat ≤ 13)

/-- Value of the digits a text starts with, read in base ten from the accumulator `acc`. -/
def digits_value : Nat → List Char → Nat
  | acc, [] => acc
  | acc, c :: cs => if c.isDigit then digits_value (acc * 10 + (c.toNat - 48)) cs else acc

/-- What `atoi` and `atol` read before narrowing: blanks are skipped, one sign is
accepted, then the leading digits are taken; a text without leading digits gives 0. -/
def parse_long (text : List Char) : Int :=
  match text.dropWhile isspace with
  | '-' :: cs => - (digits_value 0 cs : Int)
  | '+' :: cs => (digits_value 0 cs : Int)
  | cs => (digits_value 0 cs : Int)

/-- `atoi`: the result is an `int` of 16 bits; a value outside its range wraps, as the
assembly routine of avr-libc computes it. -/
def atoi (text : List Char) : Int :=
  (parse_long text + 32768) % 65536 - 32768

/-- `atol`: the result is a `long` of 32 bits, wrapping likewise. -/
def atol (text : List Char) : Int :=
  (parse_long text + 2147483648) % 4294967296 - 2147483648

/-- `tolower` on the letters `A` to `Z`; every other character is unchanged. -/
def tolower (c : Char) : Char :=
  if 'A' ≤ c ∧ c ≤ 'Z' then Char.ofNat (c.toNat + 32) else c

/-- `strncasecmp_P (s1, s2, n)`: compares at most `n` characters without regard to case
and stops at the end of the strings; 0 means equal. -/
def strncasecmp_P : List Char → List Char → Nat → Int
  | _, _, 0 => 0
  | s1, s2, n + 1 =>
    let c1 := tolower (s1.headD (Char.ofNat 0))
    let c2 := tolower (s2.headD (Char.ofNat 0))
    if c1 ≠ c2 then (c1.toNat : Int) - (c2.toNat : Int)
    else if c2 = Char.ofNat 0 then 0
    else strncasecmp_P s1.tail s2.tail n

end stdio


/-! ## `namespace console::commands::reset` -/

namespace console.commands.reset

def command : List Char := "reset".toList
def help : List Char := "Reset settings to defaults".toList

/-- `reset::exec ()`. -/
def exec (env : Extern) (s : State) : Option State :=
  let s1 := CONSOLE_UART.send_string "Reset to defaults... ".toList s
  let s2 : State := { s1 with eeprom := env.settings_reset s1.eeprom }
  some (CONSOLE_UART.send_string "Done.\r\n".toList s2)

end console.commands.reset

/-! ## `namespace console::commands::eeprom` -/

namespace console.commands.eeprom

def command : List Char := "eeprom".toList
def help : List Char := "Read/write EEPROM".toList

/-- `eeprom_read_byte (addr)`. -/
def eeprom_read_byte (s : State) (addr : Nat) : Nat :=
  s.eeprom addr % 256

/-- `dump ()`: per row the conversion `"%04x: "` of `row << 4`, sixteen times the
conversion `"%02x "` of the byte at `(row << 4) | byte`, then `console::eol ()`. -/
def dump (env : Extern) (s : State) : Option State :=
  for_u8 (env.EEPROM_SIZE / 16) (fun row s1 =>
    let s2 := CONSOLE_UART.send_string (stdio.fmt_0x 4 (row <<< 4) ++ [':', ' ']) s1
    let s3 := loop (fun byte s4 =>
      CONSOLE_UART.send_string
        (stdio.fmt_0x 2 (eeprom_read_byte s4 ((row <<< 4) ||| byte)) ++ [' ']) s4) 0 16 s2
    some (console.eol s3)) s

/-- `read ()`: sends the bytes of the EEPROM in address order. -/
def read (env : Extern) (s : State) : Option State :=
  for_u16 env.EEPROM_SIZE (fun addr s1 =>
    some (CONSOLE_UART.send (Char.ofNat (eeprom_read_byte s1 addr)) s1)) s

/-- `write ()`: stores the bytes read from the console in address order. -/
def write (env : Extern) (s : State) : Option State :=
  for_u16 env.EEPROM_SIZE (fun addr s1 =>
    (console.read s1.rx).map fun q =>
      { s1 with rx := q.2, eeprom := fun a => if a = addr then q.1 else s1.eeprom a }) s

/-- `eeprom::exec ()`. -/
def exec (env : Extern) (s : State) : Option State :=
  let usage := CONSOLE_UART.send_string "Args: d - dump, r - read, w - write".toList s
  match env.argument s.line 1 with
  | none => some usage
  | some arg =>
    let c := arg.headD (Char.ofNat 0)
    if c = 'd' ∨ c = 'D' then dump env s
    else if c = 'r' ∨ c = 'R' then read env s
    else if c = 'w' ∨ c = 'W' then write env s
    else some usage

end console.commands.eeprom

namespace console.commands.font

/-- `font::exec ()`.  With an argument present the function returns after the `switch`
whatever the letter is; the usage text is reached only without an argument. -/
def exec (env : Extern) (s : State) : Option State :=
  match env.argument s.line 1 with
  | none => some (CONSOLE_UART.send_string "Args: u - upload, d - download".toList s)
  | some arg =>
    let c := arg.headD (Char.ofNat 0)
    if c = 'u' ∨ c = 'U' then upload env s
    else if c = 'd' ∨ c = 'D' then some (download env s)
    else some s

end console.commands.font

/-! ## `namespace console::commands::opt` -/

namespace console.commands.opt

def command : List Char := "opt".toList
def help : List Char := "Read/write OSD options".toList

def __unknown : List Char := "Unknown option".toList

/-- The table `types`, indexed by the type tag. -/
def types : List (List Char) :=
  ["bool".toList, "byte".toList, "word".toList, "dword".toList, "float".toList, "str".toList]

/-- What the `switch (type)` of `display` sends after the `"= "`. -/
def display_value (env : Extern) (o : settings.option_t) (s : State) : List Char :=
  match o.type with
  | .ot_bool => stdio.fmt_u (if env.read_bool_option s.eeprom o then 1 else 0)
  | .ot_uint8 => stdio.fmt_u (env.read_uint8_option s.eeprom o % 256)
  | .ot_uint16 => stdio.fmt_u (env.read_uint16_option s.eeprom o % 65536)
  | .ot_uint32 => stdio.ltoa (stdio.to_long (env.read_uint32_option s.eeprom o))
  | .ot_float => env.read_float_text s.eeprom o
  | .ot_str => env.read_str_option s.eeprom o

/-- What the first `fprintf_P` of `display` sends: `"%03p\t(%S:%u@)\t%S\t= "`. -/
def display_head (env : Extern) (o : settings.option_t) : List Char :=
  env.fmt_p o.addr ++ ['\t', '('] ++ types.getD o.type.toNat [] ++ [':']
    ++ stdio.fmt_u (o.size % 256) ++ ['@', ')', '\t'] ++ o.name_p ++ ['\t', '=', ' ']

/-- `display (option)`. -/
def display (env : Extern) (option : Option settings.option_t) (s : State) : State :=
  match option with
  | none => CONSOLE_UART.send_string __unknown s
  | some o =>
    let s1 := CONSOLE_UART.send_string (display_head env o) s
    CONSOLE_UART.send_string (display_value env o s1) s1

/-- `list ()`. -/
def list (env : Extern) (s : State) : Option State :=
  for_u8 env.sections.length (fun sec s1 =>
    let opts := env.sections.getD sec []
    for_u8 opts.length (fun i s2 => some (console.eol (display env opts[i]? s2))) s1) s

/-- `get ()`. -/
def get (env : Extern) (s : State) : Option State :=
  match env.argument s.line 2 with
  | none => some (CONSOLE_UART.send_string "Args: <name>".toList s)
  | some name => some (display env (env.get_option name) s)

/-- The `switch (type)` of `set`: the value text goes through `atoi`, `atol` or `atof` and
is narrowed to the parameter type of the write operation. -/
def set_value (env : Extern) (o : settings.option_t) (name value : List Char)
    (eeprom : Nat → Nat) : Nat → Nat :=
  match o.type with
  | .ot_bool => env.write_bool_option eeprom name (decide (stdio.atoi value ≠ 0))
  | .ot_uint8 => env.write_uint8_option eeprom name (stdio.atoi value % 256).toNat
  | .ot_uint16 => env.write_uint16_option eeprom name (stdio.atol value % 65536).toNat
  | .ot_uint32 => env.write_uint32_option eeprom name (stdio.atol value % 4294967296).toNat
  | .ot_float => env.write_float_text eeprom name value
  | .ot_str => env.write_str_option eeprom name value

/-- `set ()`. -/
def set (env : Extern) (s : State) : Option State :=
  match env.argument s.line 2, env.argument s.line 3 with
  | some name_arg, some value =>
    let name := env.read_argument name_arg
    match env.get_option name with
    | none => some (CONSOLE_UART.send_string __unknown s)
    | some o =>
      let s1 : State := { s with eeprom := set_value env o name value s.eeprom }
      some (display env (some o) s1)
  | _, _ => some (CONSOLE_UART.send_string "Args: <name> <value>".toList s)

/-- `opt::exec ()`. -/
def exec (env : Extern) (s : State) : Option State :=
  let usage := CONSOLE_UART.send_string "Args: l - list, g - get, s - set".toList s
  match env.argument s.line 1 with
  | none => some usage
  | some arg =>
    let c := arg.headD (Char.ofNat 0)
    if c = 'l' ∨ c = 'L' then list env s
    else if c = 'g' ∨ c = 'G' then get env s
    else if c = 's' ∨ c = 'S' then set env s
    else some usage

end console.commands.opt

/-! ## `namespace console::commands::info` -/

namespace console.commands.info

def command : List Char := "info".toList
def help : List Char := "Firmware version, modules, panels".toList

/-- `info::exec ()`. -/
def exec (env : Extern) (s : State) : Option State :=
  let s1 := CONSOLE_UART.send_string
    ("VERSION: ".toList ++ stdio.fmt_0u 4 env.VERSION ++ ['\r', '\n']) s
  let s2 := CONSOLE_UART.send_string "MODULES: ".toList s1
  (for_u8 env.modules.length (fun i s3 =>
    some (CONSOLE_UART.send ' ' (CONSOLE_UART.send_string (env.modules.getD i []) s3))) s2).bind
  fun s4 =>
    let s5 := CONSOLE_UART.send_string "PANELS:\r\n".toList (console.eol s4)
    for_u8 env.panels.length (fun i s6 =>
      some (console.eol (CONSOLE_UART.send_string (env.panels.getD i [])
        (CONSOLE_UART.send_string (stdio.fmt_0u 3 i ++ [':', ' ']) s6)))) s5

end console.commands.info

/-! ## `namespace console::commands::help`, `exit`, `reboot` -/

namespace console.commands.help

def command : List Char := "help".toList
def help : List Char := "Commands list".toList

end console.commands.help

namespace console.commands.exit

def command : List Char := "exit".toList
def help : List Char := "Exit console".toList

/-- `exit::exec ()` calls `console::stop ()`, which clears `running`. -/
def exec (s : State) : Option State :=
  some { s with running := false }

end console.commands.exit

namespace console.commands.reboot

def command : List Char := "reboot".toList
def help : List Char := "Reboot OSD".toList

/-- `reboot::exec ()`: arms the watchdog and spins in `while (true)`; it never returns. -/
def exec (_ : State) : Option State :=
  none

end console.commands.reboot

/-! ## The command table and the dispatcher -/

namespace console.commands

/-- `command_t`: name, help text and handler of a command. -/
structure command_t where
  cmd_p : List Char
  help_p : List Char
  exec : State → Option State

/-- Names and help texts of the table `values`, in declared order; `get_cmd_p (i)` and
`get_help_p (i)` read them. -/
def texts : List (List Char × List Char) :=
  [(font.command, font.help), (reset.command, reset.help), (eeprom.command, eeprom.help),
   (opt.command, opt.help), (info.command, info.help), (help.command, help.help),
   (exit.command, exit.help), (reboot.command, reboot.help)]

/-- `count`: the number of entries of `values`. -/
def count : Nat := 8

/-- `help::exec ()`. -/
def help.exec (s : State) : Option State :=
  for_u8 count (fun i s1 =>
    let s2 := CONSOLE_UART.send_string (texts.getD i ([], [])).1 s1
    let s3 := CONSOLE_UART.send_string [' ', '-', ' '] s2
    let s4 := CONSOLE_UART.send_string (texts.getD i ([], [])).2 s3
    some (console.eol s4)) s

/-- The table `values`. -/
def values (env : Extern) : List command_t :=
  [⟨font.command, font.help, font.exec env⟩,
   ⟨reset.command, reset.help, reset.exec env⟩,
   ⟨eeprom.command, eeprom.help, eeprom.exec env⟩,
   ⟨opt.command, opt.help, opt.exec env⟩,
   ⟨info.command, info.help, info.exec env⟩,
   ⟨help.command, help.help, help.exec⟩,
   ⟨exit.command, exit.help, exit.exec⟩,
   ⟨reboot.command, reboot.help, reboot.exec⟩]

/-- The loop of `exec` over the entries from index `i` on: the first entry for which
`strncasecmp_P (cmd, name, size)` is 0 has its handler called and `true` is returned;
after the last entry `false` is returned. -/
def exec_from (cmd : List Char) (size : Nat) : List command_t → State → Option (Bool × State)
  | [], s => some (false, s)
  | e :: rest, s =>
    if stdio.strncasecmp_P cmd e.cmd_p size = 0 then (e.exec s).map fun s1 => (true, s1)
    else exec_from cmd size rest s

/-- `bool exec (const char *cmd, uint8_t size)`. -/
def exec (env : Extern) (cmd : List Char) (size : Nat) (s : State) : Option (Bool × State) :=
  exec_from cmd size (values env) s

end console.commands

namespace console

/-- The scan `while (command [size] && command [size] != ' ') size ++` of `process`, on a
`uint8_t` counter: with more than 255 characters before the first blank the counter wraps
and the scan never ends. -/
def token_size (command : List Char) : Option Nat :=
  let n := (command.takeWhile fun c => c ≠ Char.ofNat 0 ∧ c ≠ ' ').length
  if n ≤ 255 then some n else none

/-- `process (cmd)`.  The parameter is not used; the command is taken from
`console::argument (0)`, and a null pointer there is dereferenced. -/
def process (env : Extern) (s : State) : Option State :=
  match env.argument s.line 0 with
  | none => none
  | some command =>
    match token_size command with
    | none => none
    | some size =>
      (commands.exec env command size s).map fun r =>
        if r.1 then r.2 else CONSOLE_UART.send_string "Invalid command".toList r.2

/-- Modelled from the spec: `console::argument (n)`, defined outside the files at hand.
The line is cut into tokens at blanks; token `n`, counted from 0, is returned as the text
from its first character to the end of the line (a view, not a copy), and `none` when the
line has fewer tokens. -/
def argument : List Char → Nat → Option (List Char)
  | l, 0 =>
    match l.dropWhile (fun c => c = ' ') with
    | [] => none
    | t => some t
  | l, n + 1 => argument ((l.dropWhile (fun c => c = ' ')).dropWhile (fun c => c ≠ ' ')) n

end console

/-! ## Definitions used to state the properties -/

namespace console

/-- A receive result that `read` accepts: no bit of its high byte is set. -/
def is_data (r : Nat) : Bool :=
  decide ((r % 65536) &&& 0xff00 = 0)

/-- The bytes that successive calls of `read` deliver from a receive stream. -/
def data_bytes (rx : List Nat) : List Nat :=
  (rx.filter is_data).map fun r => r % 65536 % 256

/-- `UART_FRAME_ERROR` of `lib/uart/uart.h`. -/
def UART_FRAME_ERROR : Nat := 0x1000

/-- `UART_OVERRUN_ERROR` of `lib/uart/uart.h`. -/
def UART_OVERRUN_ERROR : Nat := 0x0800

/-- `UART_PARITY_ERROR` of `lib/uart/uart.h`. -/
def UART_PARITY_ERROR : Nat := 0x0400

/-- `UART_BUFFER_OVERFLOW` of `lib/uart/uart.h`. -/
def UART_BUFFER_OVERFLOW : Nat := 0x0200

/-- `UART_NO_DATA` of `lib/uart/uart.h`. -/
def UART_NO_DATA : Nat := 0x0100

/-- A blocking read as the specification words it: results that carry no data are
skipped, and the data byte of the first other result is returned whatever its status
bits are. -/
def read_ignoring_status : List Nat → Option (Nat × List Nat)
  | [] => none
  | r :: rest =>
    if (r % 65536) &&& UART_NO_DATA ≠ 0 then read_ignoring_status rest
    else some (r % 65536 % 256, rest)

end console

namespace console.commands.font

/-- The character `print_byte (b)` sends at step `i` of its loop. -/
def bit_char (b i : Nat) : Char :=
  if (b >>> i) &&& 1 ≠ 0 then '1' else '0'

/-- The eight characters `print_byte (b)` sends before the line terminator, first sent
first. -/
def byte_bits (b : Nat) : List Char :=
  (List.range 8).map (bit_char b)

/-- Eight bit characters of a byte with the most significant bit first, as the
specification words the encoding: character `k` is `'1'` exactly when bit `7 - k` is set. -/
def msb_first_bits (b : Nat) : List Char :=
  (List.range 8).map fun k => if b.testBit (7 - k) then '1' else '0'

/-- Line `n` (counted from 0 after the header) of a font download: byte `n % 64` of glyph
`n / 64`, which is a data byte when `n % 64 < 54` and a trailing zero byte otherwise. -/
def download_line (glyphs : Nat → Nat → Nat) (n : Nat) : List Char :=
  byte_bits (if n % 64 < 54 then glyphs (n / 64) (n % 64) % 256 else 0)

end console.commands.font

namespace console.commands.font

/-- The byte `read_byte` builds from the characters it reads, first read first. -/
def decode_bits (chars : List Nat) : Nat :=
  chars.foldl (fun res c => ((res <<< 1) ||| (((c + 65536 - 48) % 65536) &&& 1)) % 256) 0

/-- The 54 data bytes `upload` builds for one glyph from the data bytes `d` of the
receive stream that start at the glyph: byte `i` comes from the first eight characters of
group `i`, each group being ten characters long. -/
def glyph_data (d : List Nat) : List Nat :=
  (List.range 54).map fun i => decode_bits ((d.drop (10 * i)).take 8)

/-- The byte whose bit `7 - k` is bit `k` of `b`, for `k = 0 .. 7`. -/
def reverse_bits (b : Nat) : Nat :=
  ((List.range 8).map fun k => if b.testBit k then 2 ^ (7 - k) else 0).sum

end console.commands.font

namespace console.commands.font

/-- The complete text of a font download: the header line and the 16384 lines. -/
def download_text (glyphs : Nat → Nat → Nat) : List Char :=
  "MAX7456\r\n".toList
    ++ (List.range 16384).flatMap fun n => download_line glyphs n ++ ['\r', '\n']

/-- The chip calls `draw ()` makes, in order. -/
def draw_calls (env : Extern) : List max7456.call :=
  max7456.call.clear :: (List.range' 0 0x10).flatMap fun h =>
    (List.range' 0 0x10).flatMap fun l =>
      [max7456.call.put ((((env.hcenter % 256 + 256 - 8) % 256) + l) % 256) h ((h <<< 4) ||| l)]

/-- The per-glyph writes among the calls of a log: glyph index and data, in order. -/
def uploads (log : List max7456.call) : List (Nat × List Nat) :=
  log.filterMap fun x =>
    match x with
    | max7456.call.upload_char c data => some (c, data)
    | _ => none

end console.commands.font

/-! ### A concrete installation, used to instantiate the properties -/

namespace scenario

/-- Options of the sample settings store. -/
def options : List settings.option_t :=
  [⟨"beep_enabled".toList, 0, .ot_bool, 1⟩, ⟨"brightness".toList, 1, .ot_uint8, 1⟩,
   ⟨"interval".toList, 2, .ot_uint16, 2⟩, ⟨"serial".toList, 4, .ot_uint32, 4⟩]

/-- Case-insensitive look-up of an option by name. -/
def get_option (name : List Char) : Option settings.option_t :=
  options.find? fun o => o.name_p.map stdio.tolower == name.map stdio.tolower

/-- Little-endian value of `size` bytes at `addr`. -/
def read_le (eeprom : Nat → Nat) (addr : Nat) : Nat → Nat
  | 0 => 0
  | size + 1 => eeprom addr % 256 + 256 * read_le eeprom (addr + 1) size

/-- Stores `size` bytes of `v` at `addr`, least significant first. -/
def write_le (eeprom : Nat → Nat) (addr : Nat) (v : Nat) : Nat → Nat → Nat
  | 0 => eeprom
  | size + 1 => write_le (fun a => if a = addr then v % 256 else eeprom a) (addr + 1) (v / 256) size

/-- Writes an integer to the option of the given name, if there is one. -/
def write_int (eeprom : Nat → Nat) (name : List Char) (v : Nat) : Nat → Nat :=
  match get_option name with
  | none => eeprom
  | some o => write_le eeprom o.addr v o.size

/-- A sample installation: 32 bytes of EEPROM, four integer options, tokens cut at
blanks. -/
def env : Extern where
  EEPROM_SIZE := 32
  VERSION := 13
  hcenter := 15
  sections := [options]
  get_option := get_option
  read_bool_option := fun eeprom o => decide (read_le eeprom o.addr 1 ≠ 0)
  read_uint8_option := fun eeprom o => read_le eeprom o.addr 1
  read_uint16_option := fun eeprom o => read_le eeprom o.addr 2
  read_uint32_option := fun eeprom o => read_le eeprom o.addr 4
  read_float_text := fun _ _ => "0.0000".toList
  read_str_option := fun _ _ => []
  write_bool_option := fun eeprom name v => write_int eeprom name (if v then 1 else 0)
  write_uint8_option := write_int
  write_uint16_option := write_int
  write_uint32_option := write_int
  write_float_text := fun eeprom _ _ => eeprom
  write_str_option := fun eeprom _ _ => eeprom
  settings_reset := fun _ _ => 0
  modules := ["UAVTalk".toList]
  panels := ["Alt".toList]
  fmt_p := fun a => ['0', 'x'] ++ Nat.toDigits 16 a
  argument := console.argument
  read_argument := fun arg => arg.takeWhile fun c => c ≠ ' '

/-- A console state with the given line and receive stream, nothing sent, every EEPROM
byte `0xAB` and every glyph byte `0x01`. -/
def state (line : List Char) (rx : List Nat) : State where
  rx := rx
  tx := []
  line := line
  running := true
  eeprom := fun _ => 0xAB
  glyphs := fun _ _ => 1
  osd := []

end scenario

namespace console.commands.eeprom

/-- The text `dump` sends for row `row`: the offset, a colon and a blank, sixteen times a
byte followed by a blank, then the line terminator. -/
def dump_row (eeprom : Nat → Nat) (row : Nat) : List Char :=
  stdio.fmt_0x 4 (row <<< 4) ++ [':', ' ']
    ++ ((List.range 16).flatMap fun byte =>
        stdio.fmt_0x 2 (eeprom ((row <<< 4) ||| byte) % 256) ++ [' '])
    ++ ['\r', '\n']

/-- Row `r` of the dump as the specification words it: the 4-digit offset `16 * r`, a
colon and a blank, the sixteen bytes as 2-digit values separated by single blanks, then
the line terminator. -/
def dump_row_as_specified (eeprom : Nat → Nat) (r : Nat) : List Char :=
  stdio.fmt_0x 4 (16 * r) ++ [':', ' ']
    ++ [' '].intercalate ((List.range 16).map fun i => stdio.fmt_0x 2 (eeprom (16 * r + i) % 256))
    ++ ['\r', '\n']

end console.commands.eeprom

namespace stdio

/-- Whether a text starts with a number as `atoi` reads it: after leading blanks and at
most one sign comes a decimal digit. -/
def has_number (text : List Char) : Bool :=
  match text.dropWhile isspace with
  | '-' :: cs => (cs.headD ' ').isDigit
  | '+' :: cs => (cs.headD ' ').isDigit
  | cs => (cs.headD ' ').isDigit

end stdio

namespace console.commands.opt

/-- The store after the number `n` has been written to the numeric option `o`: `n` is
narrowed to the type of the option (non-zero in 16 bits is `true` for a boolean; the low
8, 16 or 32 bits for the integer types). -/
def number_written (env : Extern) (o : settings.option_t) (name : List Char) (n : Int)
    (eeprom : Nat → Nat) : Nat → Nat :=
  match o.type with
  | .ot_bool => env.write_bool_option eeprom name (decide (n % 65536 ≠ 0))
  | .ot_uint8 => env.write_uint8_option eeprom name (n % 256).toNat
  | .ot_uint16 => env.write_uint16_option eeprom name (n % 65536).toNat
  | .ot_uint32 => env.write_uint32_option eeprom name (n % 4294967296).toNat
  | _ => eeprom

end console.commands.opt

namespace stdio

/-- A command name equals a token without regard to case over the length of the token:
the first `size` characters of both agree once letters are made lower-case. -/
def name_matches (name token : List Char) (size : Nat) : Bool :=
  (name.take size).map tolower == (token.take size).map tolower

end stdio

namespace console.commands.font

/-- Whether data byte `p` of an upload stream lies in one of the ten trailing groups of a
glyph: after the 9 bytes of the header every glyph takes 640 bytes, the last 100 of which
are its trailing groups. -/
def in_trailing_group (p : Nat) : Bool :=
  decide (9 ≤ p ∧ 540 ≤ (p - 9) % 640)

end console.commands.font

namespace console.commands.opt

/-- The response line of `opt list` and `opt get` as the specification gives it:
`<addr>\t(<type>:<size>@)\t<name>\t= <value>`. -/
def response_line (addr type size name value : List Char) : List Char :=
  addr ++ "\t(".toList ++ type ++ ":".toList ++ size ++ "@)\t".toList ++ name
    ++ "\t= ".toList ++ value

end console.commands.opt

namespace scenario

end scenario

/-! ## Properties of the blocking read -/

namespace console

theorem read_cons_skip (r : Nat) (rest : List Nat) (h : is_data r = false) :
    read (r :: rest) = read rest := by
  have h1 : ¬ ((r % 65536) &&& 0xff00 = 0) := by simpa [is_data] using h
  simp [read, h1]

theorem read_cons_data (r : Nat) (rest : List Nat) (h : is_data r = true) :
    read (r :: rest) = some (r % 65536 % 256, rest) := by
  have h1 : (r % 65536) &&& 0xff00 = 0 := by simpa [is_data] using h
  simp [read, h1]

theorem read_skip_append (skipped : List Nat) (rx : List Nat)
    (h : ∀ x ∈ skipped, is_data x = false) : read (skipped ++ rx) = read rx := by
  induction skipped with
  | nil => rfl
  | cons x xs ih =>
    have hx : is_data x = false := h x (List.mem_cons_self x xs)
    have hxs : ∀ y ∈ xs, is_data y = false := fun y hy => h y (List.mem_cons_of_mem x hy)
    rw [List.cons_append, read_cons_skip x (xs ++ rx) hx, ih hxs]

/-- Reading delivers the first data byte of the stream and leaves the others. -/
theorem read_data_bytes (rx : List Nat) (d : Nat) (ds : List Nat)
    (h : data_bytes rx = d :: ds) :
    ∃ rx1, read rx = some (d, rx1) ∧ data_bytes rx1 = ds := by
  induction rx with
  | nil => simp [data_bytes] at h
  | cons r rest ih =>
    cases hr : is_data r with
    | false =>
      rw [read_cons_skip r rest hr]
      apply ih
      simpa [data_bytes, List.filter_cons, hr] using h
    | true =>
      rw [read_cons_data r rest hr]
      have h2 : r % 65536 % 256 = d ∧ data_bytes rest = ds := by
        simpa [data_bytes, List.filter_cons, hr] using h
      exact ⟨rest, by rw [h2.1], h2.2⟩

/-- A status bit of the high byte makes `read` skip the result. -/
theorem is_data_false_of_bit (r k : Nat) (hk : 8 ≤ k ∧ k < 16)
    (h : (r % 65536) &&& 2 ^ k ≠ 0) : is_data r = false := by
  have hb : (r % 65536).testBit k = true := by
    rw [Nat.and_two_pow] at h
    cases hc : (r % 65536).testBit k with
    | true => rfl
    | false => simp [hc] at h
  have hm : (0xff00 : Nat).testBit k = true := by
    obtain ⟨h8, h16⟩ := hk
    interval_cases k <;> decide
  have hne : (r % 65536) &&& 0xff00 ≠ 0 := by
    intro h0
    have := Nat.testBit_and (r % 65536) 0xff00 k
    rw [h0, hb, hm] at this
    simp at this
  simp [is_data, hne]

end console

/-! ## Output loops -/

namespace CONSOLE_UART

theorem send_string_nil (s : State) : send_string [] s = s := by
  cases s
  simp [send_string]

theorem send_string_send_string (a b : List Char) (s : State) :
    send_string b (send_string a s) = send_string (a ++ b) s := by
  simp [send_string, List.append_assoc]

end CONSOLE_UART

theorem console.eol_eq (s : State) :
    console.eol s = CONSOLE_UART.send_string ['\r', '\n'] s := rfl

/-- A loop whose steps only send text sends the texts of its steps in order. -/
theorem loop_send_string (g : State → Nat → List Char) (body : Nat → State → State)
    (hbody : ∀ i s, body i s = CONSOLE_UART.send_string (g s i) s)
    (hg : ∀ str s i, g (CONSOLE_UART.send_string str s) i = g s i) :
    ∀ (n start : Nat) (s : State),
      loop body start n s = CONSOLE_UART.send_string ((List.range' start n).flatMap (g s)) s := by
  intro n
  induction n with
  | zero =>
    intro start s
    simp [loop, CONSOLE_UART.send_string_nil]
  | succ n ih =>
    intro start s
    have hfun : g (CONSOLE_UART.send_string (g s start) s) = g s := by
      funext i
      exact hg _ _ _
    rw [loop, hbody, ih, hfun, CONSOLE_UART.send_string_send_string, List.range'_succ,
      List.flatMap_cons]

theorem loopM_some {σ : Type} (body : Nat → σ → Option σ) (f : Nat → σ → σ)
    (h : ∀ i s, body i s = some (f i s)) :
    ∀ (n start : Nat) (s : σ), loopM body start n s = some (loop f start n s) := by
  intro n
  induction n with
  | zero => intro start s; rfl
  | succ n ih => intro start s; simp [loopM, loop, h, ih]

/-! ## Text of a font download -/

namespace console.commands.font

theorem print_byte_eq (b : Nat) (s : State) :
    print_byte b s = CONSOLE_UART.send_string (byte_bits b ++ ['\r', '\n']) s := by
  have h := loop_send_string (fun _ i => [bit_char b i])
    (fun i s1 => CONSOLE_UART.send (if (b >>> i) &&& 1 ≠ 0 then '1' else '0') s1)
    (fun i s1 => rfl) (fun _ _ _ => rfl) 8 0 s
  unfold print_byte
  rw [h, console.eol_eq, CONSOLE_UART.send_string_send_string]
  rfl

theorem byte_bits_length (b : Nat) : (byte_bits b).length = 8 := by
  simp [byte_bits]

theorem byte_bits_chars (b : Nat) : ∀ ch ∈ byte_bits b, ch = '0' ∨ ch = '1' := by
  intro ch h
  simp only [byte_bits, List.mem_map] at h
  obtain ⟨i, _, rfl⟩ := h
  unfold bit_char
  split <;> simp

theorem loop_osd_only (body : Nat → State → State)
    (h : ∀ i s, ∃ l, body i s = { s with osd := l }) :
    ∀ (n start : Nat) (s : State), ∃ l, loop body start n s = { s with osd := l } := by
  intro n
  induction n with
  | zero => intro start s; exact ⟨s.osd, rfl⟩
  | succ n ih =>
    intro start s
    obtain ⟨l1, h1⟩ := h start s
    obtain ⟨l2, h2⟩ := ih (start + 1) (body start s)
    refine ⟨l2, ?_⟩
    rw [loop, h2, h1]

/-- `draw` changes nothing but the log of chip calls. -/
theorem draw_eq (env : Extern) (s : State) :
    draw env s = { s with osd := (draw env s).osd } := by
  have h : ∃ l, draw env s = { s with osd := l } := by
    unfold draw
    obtain ⟨l, hl⟩ := loop_osd_only
      (fun h s2 => loop (fun l s3 =>
        { s3 with osd := s3.osd ++ [max7456.call.put
          ((((env.hcenter % 256 + 256 - 8) % 256) + l) % 256) h ((h <<< 4) ||| l)] })
        0 0x10 s2)
      (fun h s2 => loop_osd_only _ (fun l s3 => ⟨_, rfl⟩) _ _ _) 0x10 0
      { s with osd := s.osd ++ [max7456.call.clear] }
    exact ⟨l, hl⟩
  obtain ⟨l, hl⟩ := h
  rw [hl]

end console.commands.font

theorem flatMap_range_mul {α : Type} (f : Nat → List α) (m : Nat) :
    ∀ a : Nat, (List.range (a * m)).flatMap f
      = (List.range a).flatMap fun c => (List.range m).flatMap fun i => f (m * c + i) := by
  intro a
  induction a with
  | zero => simp
  | succ a ih =>
    rw [Nat.succ_mul, List.range_add, List.flatMap_append, ih, List.range_succ,
      List.flatMap_append]
    simp [List.flatMap_map, Nat.mul_comm]

namespace console.commands.font

/-- Text of the 64 lines of glyph `c`, as the two inner loops of `download` send it. -/
theorem glyph_lines_eq (glyphs : Nat → Nat → Nat) (c : Nat) :
    ((List.range' 0 54).flatMap fun i => byte_bits (glyphs c i % 256) ++ ['\r', '\n'])
      ++ ((List.range' 0 10).flatMap fun _ => byte_bits 0 ++ ['\r', '\n'])
    = (List.range 64).flatMap fun i => download_line glyphs (64 * c + i) ++ ['\r', '\n'] := by
  have h64 : List.range 64 = List.range 54 ++ (List.range 10).map (fun x => 54 + x) :=
    List.range_add 54 10
  rw [h64, List.flatMap_append, List.flatMap_map, ← List.range_eq_range', ← List.range_eq_range']
  congr 1
  · apply List.flatMap_congr
    intro i hi
    have hi54 : i < 54 := List.mem_range.mp hi
    have h1 : (64 * c + i) % 64 = i := by omega
    have h2 : (64 * c + i) / 64 = c := by omega
    simp [download_line, h1, h2, hi54]
  · apply List.flatMap_congr
    intro j hj
    have hj10 : j < 10 := List.mem_range.mp hj
    have h1 : ¬ ((64 * c + (54 + j)) % 64 < 54) := by omega
    simp [download_line, h1]

/-- Closed form of `download`: the header, then the 16384 lines, on top of `draw`. -/
theorem download_eq (env : Extern) (s : State) :
    download env s = CONSOLE_UART.send_string
      ("MAX7456\r\n".toList
        ++ (List.range 16384).flatMap fun n => download_line s.glyphs n ++ ['\r', '\n'])
      (draw env s) := by
  have hbody : ∀ (c : Nat) (s2 : State),
      (fun c s2 =>
        let data : Nat → Nat := fun i => s2.glyphs c i % 256
        let s3 := loop (fun i s4 => print_byte (data i) s4) 0 54 s2
        loop (fun _ s4 => print_byte 0 s4) 0 10 s3) c s2
      = CONSOLE_UART.send_string
          ((fun (st : State) c => (List.range 64).flatMap fun i =>
            download_line st.glyphs (64 * c + i) ++ ['\r', '\n']) s2 c) s2 := by
    intro c s2
    have h1 := loop_send_string (fun _ i => byte_bits (s2.glyphs c i % 256) ++ ['\r', '\n'])
      (fun i s4 => print_byte (s2.glyphs c i % 256) s4)
      (fun i s4 => print_byte_eq _ s4) (fun _ _ _ => rfl) 54 0 s2
    have h2 := loop_send_string (fun _ _ => byte_bits 0 ++ ['\r', '\n'])
      (fun _ s4 => print_byte 0 s4)
      (fun i s4 => print_byte_eq _ s4) (fun _ _ _ => rfl) 10 0
    simp only []
    rw [h1, h2, CONSOLE_UART.send_string_send_string, glyph_lines_eq]
  have hloop := loop_send_string _ _ hbody (fun _ _ _ => rfl) 0x100 0
    (CONSOLE_UART.send_string "MAX7456\r\n".toList (draw env s))
  unfold download
  simp only []
  rw [hloop, CONSOLE_UART.send_string_send_string]
  have hg : (CONSOLE_UART.send_string "MAX7456\r\n".toList (draw env s)).glyphs = s.glyphs := by
    rw [draw_eq]; rfl
  have hr := flatMap_range_mul (fun n => download_line s.glyphs n ++ ['\r', '\n']) 64 256
  rw [← List.range_eq_range', hg]
  rw [show (16384 : Nat) = 256 * 64 from rfl, hr]

end console.commands.font

/-! ## Reading a font upload -/

namespace console

theorem read_take_drop (rx : List Nat) (h : 1 ≤ (data_bytes rx).length) :
    ∃ rx1, read rx = some ((data_bytes rx).headD 0, rx1)
      ∧ data_bytes rx1 = (data_bytes rx).drop 1 := by
  cases hd : data_bytes rx with
  | nil => rw [hd] at h; simp at h
  | cons d ds =>
    obtain ⟨rx1, h1, h2⟩ := read_data_bytes rx d ds hd
    exact ⟨rx1, by simpa using h1, by simpa using h2⟩

end console

namespace console.commands.font

theorem read_bit_loop (n : Nat) :
    ∀ (start acc : Nat) (rx : List Nat), n ≤ (data_bytes rx).length →
      ∃ rx1, loopM read_bit start n (acc, rx)
          = some (((data_bytes rx).take n).foldl
              (fun res c => ((res <<< 1) ||| (((c + 65536 - 48) % 65536) &&& 1)) % 256) acc, rx1)
        ∧ data_bytes rx1 = (data_bytes rx).drop n := by
  induction n with
  | zero => intro start acc rx _; exact ⟨rx, rfl, rfl⟩
  | succ n ih =>
    intro start acc rx h
    cases hd : data_bytes rx with
    | nil => rw [hd] at h; simp at h
    | cons d ds =>
      obtain ⟨rx1, h1, h2⟩ := read_data_bytes rx d ds hd
      have hn : n ≤ (data_bytes rx1).length := by
        rw [h2]; rw [hd] at h; simpa using h
      obtain ⟨rx2, h3, h4⟩ := ih (start + 1)
        (((acc <<< 1) ||| (((d + 65536 - 48) % 65536) &&& 1)) % 256) rx1 hn
      refine ⟨rx2, ?_, ?_⟩
      · simp only [loopM, read_bit, h1, Option.map_some', Option.some_bind]
        rw [h3, h2]
        simp
      · rw [h4, h2]; simp

/-- `read_byte` consumes ten data bytes and decodes the first eight. -/
theorem read_byte_take_drop (rx : List Nat) (h : 10 ≤ (data_bytes rx).length) :
    ∃ rx1, read_byte rx = some (decode_bits ((data_bytes rx).take 8), rx1)
      ∧ data_bytes rx1 = (data_bytes rx).drop 10 := by
  obtain ⟨rx1, h1, h2⟩ := read_bit_loop 8 0 0 rx (by omega)
  have l1 : 1 ≤ (data_bytes rx1).length := by rw [h2, List.length_drop]; omega
  obtain ⟨rx2, h3, h4⟩ := console.read_take_drop rx1 l1
  have l2 : 1 ≤ (data_bytes rx2).length := by rw [h4, h2]; simp only [List.length_drop]; omega
  obtain ⟨rx3, h5, h6⟩ := console.read_take_drop rx2 l2
  refine ⟨rx3, ?_, ?_⟩
  · simp [read_byte, h1, h3, h5, decode_bits]
  · rw [h6, h4, h2]; simp

end console.commands.font

theorem set_take_succ (l : List Nat) (v : Nat) :
    ∀ i : Nat, i < l.length → (l.set i v).take (i + 1) = l.take i ++ [v] := by
  induction l with
  | nil => intro i h; simp at h
  | cons x xs ih =>
    intro i h
    cases i with
    | zero => simp
    | succ i =>
      have hi : i < xs.length := by simpa using h
      simp [List.set, ih i hi]

theorem set_drop_succ (l : List Nat) (v : Nat) :
    ∀ i n : Nat, (l.set i v).drop (i + 1 + n) = l.drop (i + 1 + n) := by
  induction l with
  | nil => intro i n; simp
  | cons x xs ih =>
    intro i n
    cases i with
    | zero =>
      have h : 0 + 1 + n = n + 1 := by omega
      simp [h]
    | succ i =>
      have h : i + 1 + 1 + n = (i + 1 + n) + 1 := by omega
      rw [h]
      simp [List.set, ih i n]

namespace console.commands.font

theorem upload_skip_loop (n : Nat) :
    ∀ (start : Nat) (s : State), n ≤ (data_bytes s.rx).length →
      ∃ rx1, loopM upload_skip start n s = some { s with rx := rx1 }
        ∧ data_bytes rx1 = (data_bytes s.rx).drop n := by
  induction n with
  | zero => intro start s _; exact ⟨s.rx, rfl, rfl⟩
  | succ n ih =>
    intro start s h
    obtain ⟨rx1, h1, h2⟩ := console.read_take_drop s.rx (by omega)
    have hn : n ≤ (data_bytes ({ s with rx := rx1 } : State).rx).length := by
      show n ≤ (data_bytes rx1).length
      rw [h2, List.length_drop]; omega
    obtain ⟨rx2, h3, h4⟩ := ih (start + 1) { s with rx := rx1 } hn
    refine ⟨rx2, ?_, ?_⟩
    · simp only [loopM, upload_skip, h1, Option.map_some', Option.some_bind]
      rw [h3]
    · rw [h4]
      show (data_bytes rx1).drop n = _
      rw [h2, List.drop_drop]
      congr 1
      omega

theorem upload_trailing_loop (n : Nat) :
    ∀ (start : Nat) (s : State), 10 * n ≤ (data_bytes s.rx).length →
      ∃ rx1, loopM upload_trailing start n s = some { s with rx := rx1 }
        ∧ data_bytes rx1 = (data_bytes s.rx).drop (10 * n) := by
  induction n with
  | zero => intro start s _; exact ⟨s.rx, rfl, rfl⟩
  | succ n ih =>
    intro start s h
    obtain ⟨rx1, h1, h2⟩ := read_byte_take_drop s.rx (by omega)
    have hn : 10 * n ≤ (data_bytes ({ s with rx := rx1 } : State).rx).length := by
      show 10 * n ≤ (data_bytes rx1).length
      rw [h2, List.length_drop]; omega
    obtain ⟨rx2, h3, h4⟩ := ih (start + 1) { s with rx := rx1 } hn
    refine ⟨rx2, ?_, ?_⟩
    · simp only [loopM, upload_trailing, h1, Option.map_some', Option.some_bind]
      rw [h3]
    · rw [h4]
      show (data_bytes rx1).drop (10 * n) = _
      rw [h2, List.drop_drop]
      congr 1
      omega

theorem upload_data_loop (n : Nat) :
    ∀ (start : Nat) (data : List Nat) (s : State),
      10 * n ≤ (data_bytes s.rx).length → start + n ≤ data.length →
      ∃ rx1, loopM upload_data start n (data, s)
          = some (data.take start
              ++ ((List.range n).map fun i =>
                    decode_bits (((data_bytes s.rx).drop (10 * i)).take 8))
              ++ data.drop (start + n), { s with rx := rx1 })
        ∧ data_bytes rx1 = (data_bytes s.rx).drop (10 * n) := by
  induction n with
  | zero =>
    intro start data s _ _
    exact ⟨s.rx, by simp [loopM], rfl⟩
  | succ n ih =>
    intro start data s h hlen
    obtain ⟨rx1, h1, h2⟩ := read_byte_take_drop s.rx (by omega)
    have hn : 10 * n ≤ (data_bytes ({ s with rx := rx1 } : State).rx).length := by
      show 10 * n ≤ (data_bytes rx1).length
      rw [h2, List.length_drop]; omega
    have hl : start + 1 + n ≤
        (data.set start (decode_bits ((data_bytes s.rx).take 8))).length := by
      rw [List.length_set]; omega
    obtain ⟨rx2, h3, h4⟩ := ih (start + 1)
      (data.set start (decode_bits ((data_bytes s.rx).take 8))) { s with rx := rx1 } hn hl
    refine ⟨rx2, ?_, ?_⟩
    · simp only [loopM, upload_data, h1, Option.map_some', Option.some_bind]
      rw [h3]
      have e1 := set_take_succ data (decode_bits ((data_bytes s.rx).take 8)) start (by omega)
      have e2 := set_drop_succ data (decode_bits ((data_bytes s.rx).take 8)) start n
      have e3 : start + (n + 1) = start + 1 + n := by omega
      have e4 : (data_bytes ({ s with rx := rx1 } : State).rx) = (data_bytes s.rx).drop 10 := h2
      rw [e1, e2, e3, e4, List.range_succ_eq_map]
      simp [List.drop_drop, Nat.mul_add, Nat.add_comm]
    · rw [h4]
      show (data_bytes rx1).drop (10 * n) = _
      rw [h2, List.drop_drop]
      congr 1
      omega

end console.commands.font

namespace console.commands.font

/-- One pass of the glyph loop of `upload`: 640 data bytes are consumed and one call of
`max7456::upload_char` is made. -/
theorem upload_glyph_eq (c : Nat) (s : State) (h : 640 ≤ (data_bytes s.rx).length) :
    ∃ rx1, upload_glyph c s
        = some { s with
            rx := rx1
            osd := s.osd ++ [max7456.call.upload_char c (glyph_data (data_bytes s.rx))] }
      ∧ data_bytes rx1 = (data_bytes s.rx).drop 640 := by
  obtain ⟨rx1, h1, h2⟩ := upload_data_loop 54 0 (List.replicate 54 0) s (by omega) (by simp)
  have hn : 10 * 10 ≤ (data_bytes ({ s with rx := rx1 } : State).rx).length := by
    show 10 * 10 ≤ (data_bytes rx1).length
    rw [h2, List.length_drop]; omega
  obtain ⟨rx2, h3, h4⟩ := upload_trailing_loop 10 0 { s with rx := rx1 } hn
  refine ⟨rx2, ?_, ?_⟩
  · simp only [upload_glyph, h1, Option.some_bind, h3, Option.map_some']
    simp [glyph_data]
  · rw [h4]
    show (data_bytes rx1).drop (10 * 10) = _
    rw [h2, List.drop_drop]

theorem upload_glyph_loop (n : Nat) :
    ∀ (start : Nat) (s : State), 640 * n ≤ (data_bytes s.rx).length →
      ∃ rx1, loopM upload_glyph start n s
          = some { s with
              rx := rx1
              osd := s.osd ++ (List.range n).map fun k =>
                max7456.call.upload_char (start + k)
                  (glyph_data ((data_bytes s.rx).drop (640 * k))) }
        ∧ data_bytes rx1 = (data_bytes s.rx).drop (640 * n) := by
  induction n with
  | zero =>
    intro start s _
    exact ⟨s.rx, by simp [loopM], rfl⟩
  | succ n ih =>
    intro start s h
    obtain ⟨rx1, h1, h2⟩ := upload_glyph_eq start s (by omega)
    have hn : 640 * n ≤ (data_bytes ({ s with
        rx := rx1
        osd := s.osd ++ [max7456.call.upload_char start (glyph_data (data_bytes s.rx))] }
        : State).rx).length := by
      show 640 * n ≤ (data_bytes rx1).length
      rw [h2, List.length_drop]; omega
    obtain ⟨rx2, h3, h4⟩ := ih (start + 1) _ hn
    refine ⟨rx2, ?_, ?_⟩
    · simp only [loopM, h1, Option.some_bind]
      rw [h3]
      have e4 : (data_bytes rx1) = (data_bytes s.rx).drop 640 := h2
      simp only [e4, List.range_succ_eq_map, List.map_cons, List.map_map, List.drop_drop]
      simp [Function.comp_def, Nat.mul_add, Nat.add_comm, Nat.add_left_comm]
    · rw [h4]
      show (data_bytes rx1).drop (640 * n) = _
      rw [h2, List.drop_drop]
      congr 1
      omega

/-- Framing of `upload` on a receive stream with at least 163849 data bytes. -/
theorem upload_eq (env : Extern) (s : State) (h : 163849 ≤ (data_bytes s.rx).length) :
    ∃ rx1, upload env s
        = some { s with
            rx := rx1
            tx := s.tx ++ "Send MCM-file\r\n".toList ++ "Done.\r\n".toList
            osd := (draw env s).osd ++ (List.range 256).map fun c =>
              max7456.call.upload_char c (glyph_data ((data_bytes s.rx).drop (9 + 640 * c))) }
      ∧ data_bytes rx1 = (data_bytes s.rx).drop 163849 := by
  have hd := draw_eq env s
  obtain ⟨rx1, h1, h2⟩ := upload_skip_loop 9 0
    (CONSOLE_UART.send_string "Send MCM-file\r\n".toList (draw env s))
    (by rw [hd]; exact Nat.le_trans (by omega) h)
  have e1 : data_bytes rx1 = (data_bytes s.rx).drop 9 := by
    rw [h2, hd]; rfl
  obtain ⟨rx2, h3, h4⟩ := upload_glyph_loop 256 0
    ({ (CONSOLE_UART.send_string "Send MCM-file\r\n".toList (draw env s)) with rx := rx1 })
    (by show 640 * 256 ≤ (data_bytes rx1).length
        rw [e1, List.length_drop]; omega)
  refine ⟨rx2, ?_, ?_⟩
  · simp only [upload, h1, Option.some_bind, h3, Option.map_some']
    have e2 : (data_bytes ({ (CONSOLE_UART.send_string "Send MCM-file\r\n".toList (draw env s))
        with rx := rx1 } : State).rx) = (data_bytes s.rx).drop 9 := e1
    simp only [e2, List.drop_drop]
    rw [hd]
    simp [CONSOLE_UART.send_string]
  · rw [h4]
    show (data_bytes rx1).drop (640 * 256) = _
    rw [e1, List.drop_drop]

end console.commands.font

/-- A loop whose steps only log chip calls logs the calls of its steps in order. -/
theorem loop_log (g : Nat → List max7456.call) (body : Nat → State → State)
    (hbody : ∀ i s, body i s = { s with osd := s.osd ++ g i }) :
    ∀ (n start : Nat) (s : State),
      loop body start n s = { s with osd := s.osd ++ (List.range' start n).flatMap g } := by
  intro n
  induction n with
  | zero => intro start s; cases s; simp [loop]
  | succ n ih =>
    intro start s
    rw [loop, hbody, ih, List.range'_succ, List.flatMap_cons]
    simp [List.append_assoc]

namespace console.commands.font

theorem draw_osd (env : Extern) (s : State) : (draw env s).osd = s.osd ++ draw_calls env := by
  have hin : ∀ (h : Nat) (s2 : State),
      loop (fun l s3 =>
        ({ s3 with osd := s3.osd ++ [max7456.call.put
          ((((env.hcenter % 256 + 256 - 8) % 256) + l) % 256) h ((h <<< 4) ||| l)] } : State))
        0 0x10 s2
      = { s2 with osd := s2.osd ++ (fun h => (List.range' 0 0x10).flatMap fun l =>
          [max7456.call.put ((((env.hcenter % 256 + 256 - 8) % 256) + l) % 256) h
            ((h <<< 4) ||| l)]) h } := by
    intro h s2
    exact loop_log _ _ (fun l s3 => rfl) 0x10 0 s2
  have hout := loop_log _ _ hin 0x10 0 { s with osd := s.osd ++ [max7456.call.clear] }
  unfold draw
  simp only []
  rw [hout]
  simp [draw_calls]

theorem uploads_draw_calls (env : Extern) : uploads (draw_calls env) = [] := by
  simp only [uploads, draw_calls, List.filterMap_cons, List.filterMap_eq_nil_iff,
    List.mem_flatMap, List.mem_singleton]
  rintro a ⟨h, _, l, _, rfl⟩
  rfl

theorem uploads_append (a b : List max7456.call) : uploads (a ++ b) = uploads a ++ uploads b := by
  simp [uploads, List.filterMap_append]

theorem uploads_map (f : Nat → List Nat) (l : List Nat) :
    uploads (l.map fun c => max7456.call.upload_char c (f c)) = l.map fun c => (c, f c) := by
  induction l with
  | nil => rfl
  | cons x xs ih =>
    simp only [List.map_cons]
    rw [show (max7456.call.upload_char x (f x) :: xs.map fun c => max7456.call.upload_char c (f c))
      = [max7456.call.upload_char x (f x)] ++ xs.map fun c => max7456.call.upload_char c (f c)
      from rfl, uploads_append, ih]
    rfl

end console.commands.font

/-! ## A download fed back into an upload -/

namespace console

set_option maxRecDepth 100000 in
theorem is_data_of_lt (r : Nat) (h : r < 256) : is_data r = true := by
  have key : ∀ r : Nat, r < 256 → is_data r = true := by decide
  exact key r h

theorem data_bytes_of_lt (l : List Nat) (h : ∀ r ∈ l, r < 256) : data_bytes l = l := by
  induction l with
  | nil => rfl
  | cons r rest ih =>
    have hr : r < 256 := h r (List.mem_cons_self r rest)
    have hrest : data_bytes rest = rest := ih fun x hx => h x (List.mem_cons_of_mem r hx)
    have hd : is_data r = true := is_data_of_lt r hr
    have hm : r % 65536 % 256 = r := by omega
    have hrest2 : List.map (fun r => r % 65536 % 256) (List.filter is_data rest) = rest := hrest
    simp [data_bytes, List.filter_cons, hd, hm, hrest2]

end console

theorem length_flatMap_const {α : Type} (f : Nat → List α) (m : Nat)
    (h : ∀ k, (f k).length = m) :
    ∀ l : List Nat, (l.flatMap f).length = m * l.length := by
  intro l
  induction l with
  | nil => simp
  | cons x xs ih => rw [List.flatMap_cons, List.length_append, ih, h, List.length_cons]; ring

/-- In a text made of blocks of equal length, block `n` starts at `m * n`. -/
theorem drop_flatMap_range {α : Type} (f : Nat → List α) (m : Nat)
    (h : ∀ k, (f k).length = m) (N n : Nat) (hn : n < N) :
    ∃ rest, ((List.range N).flatMap f).drop (m * n) = f n ++ rest := by
  have hsplit : List.range N = List.range n ++ (n :: List.range' (n + 1) (N - n - 1)) := by
    have h1 : List.range N = List.range' 0 n ++ List.range' (0 + 1 * n) (N - n) := by
      rw [List.range'_append, List.range_eq_range']
      congr 1
      omega
    have h2 : List.range' (0 + 1 * n) (N - n) = n :: List.range' (n + 1) (N - n - 1) := by
      have : N - n = (N - n - 1) + 1 := by omega
      rw [this, List.range'_succ]
      simp
    rw [h1, h2, List.range_eq_range']
  have hlen : ((List.range n).flatMap f).length = m * n := by
    rw [length_flatMap_const f m h, List.length_range]
  refine ⟨(List.range' (n + 1) (N - n - 1)).flatMap f, ?_⟩
  rw [hsplit, List.flatMap_append, List.flatMap_cons, ← hlen, List.drop_left]

namespace console.commands.font

set_option maxRecDepth 100000 in
theorem decode_byte_bits (b : Nat) (h : b < 256) :
    decode_bits ((byte_bits b).map Char.toNat) = reverse_bits b := by
  have key : ∀ b : Nat, b < 256 →
      decode_bits ((byte_bits b).map Char.toNat) = reverse_bits b := by decide
  exact key b h

end console.commands.font

namespace console.commands.font

theorem download_line_length (glyphs : Nat → Nat → Nat) (n : Nat) :
    (download_line glyphs n ++ ['\r', '\n']).length = 10 := by
  simp [download_line, byte_bits_length]

theorem download_text_length (glyphs : Nat → Nat → Nat) :
    (download_text glyphs).length = 163849 := by
  unfold download_text
  rw [List.length_append, length_flatMap_const _ 10 (download_line_length glyphs),
    List.length_range]
  rfl

theorem download_text_chars (glyphs : Nat → Nat → Nat) :
    ∀ ch ∈ download_text glyphs, ch.toNat < 256 := by
  intro ch h
  simp only [download_text, List.mem_append, List.mem_flatMap, List.mem_range] at h
  rcases h with h | ⟨n, _, h | h⟩
  · have key : ∀ x ∈ "MAX7456\r\n".toList, x.toNat < 256 := by decide
    exact key ch h
  · rcases byte_bits_chars _ ch h with rfl | rfl <;> decide
  · have key : ∀ x ∈ ['\r', '\n'], x.toNat < 256 := by decide
    exact key ch h

/-- The eight characters that encode byte `i` of glyph `c` in a download. -/
theorem download_text_group (glyphs : Nat → Nat → Nat) (c i : Nat) (hc : c < 256)
    (hi : i < 54) :
    (((download_text glyphs).drop (9 + 640 * c)).drop (10 * i)).take 8
      = byte_bits (glyphs c i % 256) := by
  obtain ⟨rest, hrest⟩ := drop_flatMap_range
    (fun n => download_line glyphs n ++ ['\r', '\n']) 10 (download_line_length glyphs)
    16384 (64 * c + i) (by omega)
  have hpos : 9 + 640 * c + 10 * i = "MAX7456\r\n".toList.length + 10 * (64 * c + i) := by
    have : "MAX7456\r\n".toList.length = 9 := rfl
    omega
  have h1 : (64 * c + i) % 64 = i := by omega
  have h2 : (64 * c + i) / 64 = c := by omega
  rw [List.drop_drop, hpos]
  unfold download_text
  rw [List.drop_append, hrest]
  simp only [download_line, h1, h2, hi, if_true]
  rw [List.append_assoc, List.take_append_of_le_length (by rw [byte_bits_length]),
    List.take_of_length_le (by rw [byte_bits_length])]

/-- An upload that receives the text of a download hands every byte to the chip with its
bits in reverse order. -/
theorem upload_of_download (env : Extern) (s : State) (glyphs : Nat → Nat → Nat)
    (hrx : s.rx = (download_text glyphs).map Char.toNat) :
    ∃ s1, upload env s = some s1
      ∧ uploads s1.osd = uploads s.osd ++ (List.range 256).map fun c =>
          (c, (List.range 54).map fun i => reverse_bits (glyphs c i % 256)) := by
  have hlt : ∀ r ∈ s.rx, r < 256 := by
    intro r hr
    rw [hrx, List.mem_map] at hr
    obtain ⟨ch, hch, rfl⟩ := hr
    exact download_text_chars glyphs ch hch
  have hd : data_bytes s.rx = (download_text glyphs).map Char.toNat := by
    rw [console.data_bytes_of_lt s.rx hlt, hrx]
  have hlen : 163849 ≤ (data_bytes s.rx).length := by
    rw [hd, List.length_map, download_text_length]
  obtain ⟨rx1, h1, _⟩ := upload_eq env s hlen
  refine ⟨_, h1, ?_⟩
  show uploads ((draw env s).osd ++ _) = _
  rw [draw_osd, uploads_append, uploads_append, uploads_draw_calls, List.append_nil,
    uploads_map]
  congr 1
  apply List.map_congr_left
  intro c hc
  have hc256 : c < 256 := List.mem_range.mp hc
  congr 1
  unfold glyph_data
  apply List.map_congr_left
  intro i hi
  have hi54 : i < 54 := List.mem_range.mp hi
  rw [hd, List.drop_drop, ← List.map_drop, ← List.map_take, ← List.drop_drop,
    download_text_group glyphs c i hc256 hi54]
  exact decode_byte_bits _ (Nat.mod_lt _ (by omega))

end console.commands.font

/-! ## The font codec: encoding, download format, upload framing, round trip -/

namespace console.commands.font

theorem bit_char_eq (b k : Nat) : bit_char b k = if b.testBit k then '1' else '0' := by
  unfold bit_char Nat.testBit
  by_cases h : (b >>> k) &&& 1 = 0
  · have h2 : 1 &&& (b >>> k) = 0 := by rw [Nat.land_comm]; exact h
    simp [h, h2]
  · have h2 : ¬ (1 &&& (b >>> k) = 0) := by rw [Nat.land_comm]; exact h
    simp [h, h2]

theorem download_tx (env : Extern) (s : State) :
    (download env s).tx = s.tx ++ download_text s.glyphs := by
  rw [download_eq, draw_eq]
  rfl

set_option maxRecDepth 100000 in
theorem read_byte_print_byte_one :
    read_byte (((print_byte 1 (scenario.state [] [])).tx).map Char.toNat) = some (128, []) := by
  decide

theorem scenario_state_rx (line : List Char) (rx : List Nat) :
    (scenario.state line rx).rx = rx := rfl

theorem scenario_state_tx (line : List Char) (rx : List Nat) :
    (scenario.state line rx).tx = [] := rfl

theorem scenario_state_osd (line : List Char) (rx : List Nat) :
    (scenario.state line rx).osd = [] := rfl

theorem scenario_state_glyphs (line : List Char) (rx : List Nat) :
    (scenario.state line rx).glyphs = fun _ _ => 1 := rfl

theorem scenario_download_rx :
    (scenario.state []
      (((download scenario.env (scenario.state [] [])).tx).map Char.toNat)).rx
      = (download_text (fun _ _ => 1)).map Char.toNat := by
  rw [scenario_state_rx, download_tx, scenario_state_tx, scenario_state_glyphs, List.nil_append]

/-- C1, at the glyph table whose 256 × 54 data bytes are all `0x01`: the characters
`print_byte (0x01)` emits are read back by `read_byte` as `0x80`, and an upload fed with
the complete text of the download hands `0x80` for every data byte to the per-glyph
write, not the `0x01` the download read. -/
theorem font_roundtrip_reverses_bits :
    read_byte (((print_byte 1 (scenario.state [] [])).tx).map Char.toNat) = some (128, [])
    ∧ (∀ c i, (scenario.state [] []).glyphs c i = 1)
    ∧ ∃ s1,
        upload scenario.env
          (scenario.state [] (((download scenario.env (scenario.state [] [])).tx).map Char.toNat))
          = some s1
        ∧ uploads s1.osd = (List.range 256).map fun c => (c, List.replicate 54 128) := by
  refine ⟨read_byte_print_byte_one, fun _ _ => rfl, ?_⟩
  obtain ⟨s1, h1, h2⟩ := upload_of_download scenario.env _ (fun _ _ => 1) scenario_download_rx
  refine ⟨s1, h1, ?_⟩
  rw [h2]
  have hrev : reverse_bits (1 % 256) = 128 := by decide
  have hrep : ((List.range 54).map fun _ => 128) = List.replicate 54 128 := by decide
  have hu : uploads (scenario.state []
      (((download scenario.env (scenario.state [] [])).tx).map Char.toNat)).osd = [] := by
    rw [scenario_state_osd]
    rfl
  rw [hu, List.nil_append]
  simp only [hrev, hrep]
/-- C2, evaluated: `print_byte (b)` emits eight characters `'0'` or `'1'` and the line
terminator, but least significant bit first: character `k` is `'1'` exactly when bit `k`
of `b` is set.  For `b = 1` the text sent is `10000000`, where most significant bit first
would be `00000001`. -/
theorem print_byte_least_significant_first (b : Nat) (s : State) :
    (print_byte b s).tx
        = s.tx ++ ((List.range 8).map fun k => if b.testBit k then '1' else '0') ++ ['\r', '\n']
    ∧ (print_byte 1 s).tx = s.tx ++ "10000000\r\n".toList
    ∧ msb_first_bits 1 = "00000001".toList := by
  refine ⟨?_, ?_, by decide⟩
  · rw [print_byte_eq]
    show s.tx ++ (byte_bits b ++ ['\r', '\n']) = _
    rw [← List.append_assoc]
    congr 2
    unfold byte_bits
    apply List.map_congr_left
    intro k _
    exact bit_char_eq b k
  · rw [print_byte_eq]
    rfl

/-- C5: the text `download` emits is the header line `MAX7456` followed by 16384 lines,
each made of eight characters `'0'` or `'1'` and the line terminator; line `64 * c + i`
carries byte `i` of glyph `c` for `i < 54` and a zero byte for `54 ≤ i < 64`; for a table
of zeros every line is `00000000`. -/
theorem download_format (env : Extern) (s : State) :
    (download env s).tx = s.tx ++ "MAX7456\r\n".toList
        ++ ((List.range 16384).map fun n => download_line s.glyphs n ++ ['\r', '\n']).flatten
    ∧ ((List.range 16384).map fun n => download_line s.glyphs n ++ ['\r', '\n']).length = 16384
    ∧ (∀ n, (download_line s.glyphs n).length = 8
        ∧ ∀ ch ∈ download_line s.glyphs n, ch = '0' ∨ ch = '1')
    ∧ (∀ c i, i < 64 → download_line s.glyphs (64 * c + i)
        = byte_bits (if i < 54 then s.glyphs c i % 256 else 0))
    ∧ ((∀ c i, s.glyphs c i = 0) → ∀ n, download_line s.glyphs n = "00000000".toList) := by
  refine ⟨?_, by simp, ?_, ?_, ?_⟩
  · rw [download_tx, download_text, List.append_assoc, List.flatMap_def]
  · intro n
    exact ⟨byte_bits_length _, byte_bits_chars _⟩
  · intro c i hi
    have h1 : (64 * c + i) % 64 = i := by omega
    have h2 : (64 * c + i) / 64 = c := by omega
    simp only [download_line, h1, h2]
  · intro hz n
    have h0 : byte_bits 0 = "00000000".toList := by decide
    unfold download_line
    rw [hz]
    split <;> exact h0

/-- C6: on a receive stream with at least 9 + 256 * 64 * 10 = 163849 data bytes `upload`
returns; it has consumed exactly the first 163849 data bytes and made exactly 256
per-glyph writes, for `c = 0 .. 255` in order, the write for glyph `c` carrying the 54
bytes decoded from the first eight characters of the groups that start at data byte
`9 + 640 * c + 10 * i`, `i = 0 .. 53`; the first 9 data bytes and the last 10 groups of
every glyph do not enter any write. -/
theorem upload_framing (env : Extern) (s : State)
    (h : 9 + 256 * 64 * 10 ≤ (data_bytes s.rx).length) :
    ∃ s1, upload env s = some s1
      ∧ data_bytes s1.rx = (data_bytes s.rx).drop 163849
      ∧ uploads s1.osd = uploads s.osd ++ ((List.range 256).map fun c =>
          (c, (List.range 54).map fun i =>
            decode_bits (((data_bytes s.rx).drop (9 + 640 * c + 10 * i)).take 8)))
      ∧ (uploads s1.osd).length = (uploads s.osd).length + 256
      ∧ s1.tx = s.tx ++ "Send MCM-file\r\n".toList ++ "Done.\r\n".toList := by
  obtain ⟨rx1, h1, h2⟩ := upload_eq env s h
  have hu : uploads ((draw env s).osd ++ (List.range 256).map fun c =>
        max7456.call.upload_char c (glyph_data ((data_bytes s.rx).drop (9 + 640 * c))))
      = uploads s.osd ++ (List.range 256).map fun c =>
          (c, (List.range 54).map fun i =>
            decode_bits (((data_bytes s.rx).drop (9 + 640 * c + 10 * i)).take 8)) := by
    rw [draw_osd, uploads_append, uploads_append, uploads_draw_calls, List.append_nil,
      uploads_map]
    simp [glyph_data, List.drop_drop]
  refine ⟨_, h1, h2, hu, ?_, rfl⟩
  show (uploads ((draw env s).osd ++ _)).length = _
  rw [hu]
  simp

/-- Instance of `upload_framing`: a stream of 163849 characters `'0'`. -/
theorem upload_framing_witness :
    9 + 256 * 64 * 10 ≤ (data_bytes (scenario.state [] (List.replicate 163849 48)).rx).length
    ∧ ∃ s1, upload scenario.env (scenario.state [] (List.replicate 163849 48)) = some s1
      ∧ data_bytes s1.rx = (data_bytes (scenario.state [] (List.replicate 163849 48)).rx).drop 163849
      ∧ uploads s1.osd = uploads (scenario.state [] (List.replicate 163849 48)).osd
          ++ ((List.range 256).map fun c =>
          (c, (List.range 54).map fun i =>
            decode_bits (((data_bytes (scenario.state [] (List.replicate 163849 48)).rx).drop
              (9 + 640 * c + 10 * i)).take 8)))
      ∧ (uploads s1.osd).length
          = (uploads (scenario.state [] (List.replicate 163849 48)).osd).length + 256
      ∧ s1.tx = (scenario.state [] (List.replicate 163849 48)).tx
          ++ "Send MCM-file\r\n".toList ++ "Done.\r\n".toList :=
  have hlen : 9 + 256 * 64 * 10
      ≤ (data_bytes (scenario.state [] (List.replicate 163849 48)).rx).length := by
    have hd : is_data 48 = true := by decide
    show 9 + 256 * 64 * 10 ≤ (data_bytes (List.replicate 163849 48)).length
    unfold data_bytes
    rw [List.filter_replicate, if_pos hd, List.length_map, List.length_replicate]
  ⟨hlen, upload_framing scenario.env (scenario.state [] (List.replicate 163849 48)) hlen⟩

end console.commands.font

/-! ## The blocking read and the status bits -/

namespace console

/-- C7 as stated fails: a byte that arrives with the framing-error status, `0x1041`, is
not delivered; `read` drops it and returns the next clean byte, whereas a read that
ignores the status bits would return `0x41`. -/
theorem read_drops_byte_with_error_status :
    read [0x1041, 0x0042] = some (0x42, [])
    ∧ read_ignoring_status [0x1041, 0x0042] = some (0x41, [0x0042])
    ∧ read [0x1041, 0x0042] ≠ read_ignoring_status [0x1041, 0x0042] := by
  decide

/-- C7, amended: `read` skips every receive result in which a bit of the high byte is
set and returns the low byte of the first result whose high byte is zero; a result that
carries the no-data, framing-error, overrun, parity-error or buffer-overflow status is
among the skipped ones, so a byte received with an error status is dropped. -/
theorem read_returns_first_clean_byte (skipped : List Nat) (r : Nat) (rest : List Nat)
    (hskip : ∀ x ∈ skipped, (x % 65536) &&& 0xff00 ≠ 0)
    (hr : (r % 65536) &&& 0xff00 = 0) :
    read (skipped ++ r :: rest) = some (r % 65536 % 256, rest)
    ∧ ∀ flag ∈ [UART_FRAME_ERROR, UART_OVERRUN_ERROR, UART_PARITY_ERROR,
        UART_BUFFER_OVERFLOW, UART_NO_DATA],
      ∀ x rx, (x % 65536) &&& flag ≠ 0 → read (x :: rx) = read rx := by
  have h1 : ∀ x ∈ skipped, is_data x = false := by
    intro x hx
    simpa [is_data] using hskip x hx
  have h2 : is_data r = true := by simpa [is_data] using hr
  refine ⟨by rw [read_skip_append skipped _ h1, read_cons_data r rest h2], ?_⟩
  intro flag hflag x rx hx
  apply read_cons_skip
  simp only [List.mem_cons, List.mem_singleton, List.not_mem_nil, or_false] at hflag
  rcases hflag with rfl | rfl | rfl | rfl | rfl
  · exact is_data_false_of_bit x 12 (by omega) hx
  · exact is_data_false_of_bit x 11 (by omega) hx
  · exact is_data_false_of_bit x 10 (by omega) hx
  · exact is_data_false_of_bit x 9 (by omega) hx
  · exact is_data_false_of_bit x 8 (by omega) hx

/-- Instance of `read_returns_first_clean_byte`: a no-data result and a byte with the
framing-error status are skipped, then `0x42` is returned. -/
theorem read_returns_first_clean_byte_witness :
    (∀ x ∈ [0x0100, 0x1041], (x % 65536) &&& 0xff00 ≠ 0)
    ∧ ((0x0042 % 65536) &&& 0xff00 = 0)
    ∧ read ([0x0100, 0x1041] ++ 0x0042 :: [0x0043]) = some (0x0042 % 65536 % 256, [0x0043]) :=
  ⟨by decide, by decide,
    (read_returns_first_clean_byte [0x0100, 0x1041] 0x0042 [0x0043]
      (by decide) (by decide)).1⟩

end console

/-! ## The EEPROM dump -/

namespace console.commands.eeprom

/-- Text of row `row` of the dump, as the loop body sends it. -/
theorem dump_row_eq (row : Nat) (s1 : State) :
    console.eol (loop (fun byte s4 =>
      CONSOLE_UART.send_string
        (stdio.fmt_0x 2 (eeprom_read_byte s4 ((row <<< 4) ||| byte)) ++ [' ']) s4) 0 16
        (CONSOLE_UART.send_string (stdio.fmt_0x 4 (row <<< 4) ++ [':', ' ']) s1))
    = CONSOLE_UART.send_string (dump_row s1.eeprom row) s1 := by
  have h := loop_send_string
    (fun st byte => stdio.fmt_0x 2 (eeprom_read_byte st ((row <<< 4) ||| byte)) ++ [' '])
    (fun byte s4 => CONSOLE_UART.send_string
        (stdio.fmt_0x 2 (eeprom_read_byte s4 ((row <<< 4) ||| byte)) ++ [' ']) s4)
    (fun _ _ => rfl) (fun _ _ _ => rfl) 16 0
    (CONSOLE_UART.send_string (stdio.fmt_0x 4 (row <<< 4) ++ [':', ' ']) s1)
  rw [h, console.eol_eq, CONSOLE_UART.send_string_send_string,
    CONSOLE_UART.send_string_send_string, ← List.range_eq_range']
  simp only [dump_row, eeprom_read_byte, CONSOLE_UART.send_string, List.append_assoc]

theorem dump_eq (env : Extern) (s : State) (h : env.EEPROM_SIZE / 16 ≤ 255) :
    dump env s = some (CONSOLE_UART.send_string
      ((List.range (env.EEPROM_SIZE / 16)).flatMap (dump_row s.eeprom)) s) := by
  unfold dump for_u8
  rw [if_pos h]
  have hb : ∀ (row : Nat) (s1 : State),
      (fun row s1 =>
        let s2 := CONSOLE_UART.send_string (stdio.fmt_0x 4 (row <<< 4) ++ [':', ' ']) s1
        let s3 := loop (fun byte s4 =>
          CONSOLE_UART.send_string
            (stdio.fmt_0x 2 (eeprom_read_byte s4 ((row <<< 4) ||| byte)) ++ [' ']) s4) 0 16 s2
        some (console.eol s3)) row s1
      = some ((fun row s1 => CONSOLE_UART.send_string (dump_row s1.eeprom row) s1) row s1) := by
    intro row s1
    simp only []
    rw [dump_row_eq]
  rw [loopM_some _ _ hb, loop_send_string (fun st row => dump_row st.eeprom row) _
    (fun _ _ => rfl) (fun _ _ _ => rfl), ← List.range_eq_range']

end console.commands.eeprom

namespace console.commands.eeprom

theorem dump_address (r b : Nat) (hb : b < 16) :
    r <<< 4 = 16 * r ∧ (r <<< 4) ||| b = 16 * r + b := by
  have h1 : r <<< 4 = 16 * r := by rw [Nat.shiftLeft_eq]; omega
  refine ⟨h1, ?_⟩
  rw [h1]
  exact (Nat.mul_add_lt_is_or (show b < 2 ^ 4 by omega) r).symm

set_option maxRecDepth 100000 in
theorem fmt_0x_length (v : Nat) (h : v < 256) :
    (stdio.fmt_0x 4 (16 * v)).length = 4 ∧ (stdio.fmt_0x 2 v).length = 2 := by
  have key : ∀ v : Nat, v < 256 →
      (stdio.fmt_0x 4 (16 * v)).length = 4 ∧ (stdio.fmt_0x 2 v).length = 2 := by decide
  exact key v h

theorem dump_row_eq_explicit (eeprom : Nat → Nat) (r : Nat) :
    dump_row eeprom r = stdio.fmt_0x 4 (16 * r) ++ [':', ' ']
      ++ ((List.range 16).flatMap fun i => stdio.fmt_0x 2 (eeprom (16 * r + i) % 256) ++ [' '])
      ++ ['\r', '\n'] := by
  unfold dump_row
  rw [(dump_address r 0 (by omega)).1]
  congr 2
  apply List.flatMap_congr
  intro i hi
  have hi16 : i < 16 := List.mem_range.mp hi
  have h2 : (16 * r) ||| i = 16 * r + i :=
    (Nat.mul_add_lt_is_or (show i < 2 ^ 4 by omega) r).symm
  rw [h2]

/-- C4 as stated fails: on the store of size 32 with every byte `0xAB` each of the two
rows ends with a blank before the line terminator, so the output is not the rows with
the sixteen values separated by single blanks. -/
theorem dump_rows_end_with_blank :
    ((dump scenario.env (scenario.state [] [])).map fun s => s.tx)
      = some ("0000: ab ab ab ab ab ab ab ab ab ab ab ab ab ab ab ab \r\n".toList
          ++ "0010: ab ab ab ab ab ab ab ab ab ab ab ab ab ab ab ab \r\n".toList)
    ∧ dump_row_as_specified (scenario.state [] []).eeprom 0
      = "0000: ab ab ab ab ab ab ab ab ab ab ab ab ab ab ab ab\r\n".toList
    ∧ ((dump scenario.env (scenario.state [] [])).map fun s => s.tx)
      ≠ some ((List.range (32 / 16)).flatMap
          (dump_row_as_specified (scenario.state [] []).eeprom)) := by
  decide

/-- C4, amended: when `EEPROM_SIZE / 16` fits the 8-bit row counter, `dump` emits exactly
`EEPROM_SIZE / 16` rows in ascending address order; row `r` is the 4-digit hexadecimal
offset `16 * r`, a colon and a blank, then each of the sixteen bytes at `16 * r .. 16 * r
+ 15` as a 2-digit lower-case hexadecimal value followed by one blank (the last one
too), then the line terminator. -/
theorem dump_format (env : Extern) (s : State) (h : env.EEPROM_SIZE / 16 ≤ 255) :
    dump env s = some { s with tx := s.tx ++ ((List.range (env.EEPROM_SIZE / 16)).flatMap fun r =>
      stdio.fmt_0x 4 (16 * r) ++ [':', ' ']
        ++ ((List.range 16).flatMap fun i =>
            stdio.fmt_0x 2 (s.eeprom (16 * r + i) % 256) ++ [' '])
        ++ ['\r', '\n']) }
    ∧ (∀ r, r < env.EEPROM_SIZE / 16 → (stdio.fmt_0x 4 (16 * r)).length = 4)
    ∧ (∀ a, (stdio.fmt_0x 2 (s.eeprom a % 256)).length = 2) := by
  refine ⟨?_, ?_, ?_⟩
  · rw [dump_eq env s h]
    unfold CONSOLE_UART.send_string
    congr 3
    apply List.flatMap_congr
    intro r hr
    exact dump_row_eq_explicit s.eeprom r
  · intro r hr
    exact (fmt_0x_length r (by omega)).1
  · intro a
    exact (fmt_0x_length _ (Nat.mod_lt _ (by omega))).2

end console.commands.eeprom

namespace console.commands.eeprom

/-- Instance of `dump_format`: the store of size 32. -/
theorem dump_format_witness :
    scenario.env.EEPROM_SIZE / 16 ≤ 255
    ∧ (dump scenario.env (scenario.state [] [])
        = some { (scenario.state [] []) with tx := (scenario.state [] []).tx
          ++ ((List.range (scenario.env.EEPROM_SIZE / 16)).flatMap fun r =>
            stdio.fmt_0x 4 (16 * r) ++ [':', ' ']
              ++ ((List.range 16).flatMap fun i =>
                  stdio.fmt_0x 2 ((scenario.state [] []).eeprom (16 * r + i) % 256) ++ [' '])
              ++ ['\r', '\n']) }
      ∧ (∀ r, r < scenario.env.EEPROM_SIZE / 16 → (stdio.fmt_0x 4 (16 * r)).length = 4)
      ∧ (∀ a, (stdio.fmt_0x 2 ((scenario.state [] []).eeprom a % 256)).length = 2)) :=
  ⟨by decide, dump_format scenario.env (scenario.state [] []) (by decide)⟩

end console.commands.eeprom

/-! ## Display and assignment of options -/

namespace console.commands.opt

/-- C8, evaluated at the 32-bit option `serial` holding 2880154539 (bytes `ab ab ab ab`):
`display` renders the value through `ltoa`, which takes a signed `long`, and sends
`-1414812757`, not the unsigned decimal numeral `2880154539`. -/
theorem display_uint32_as_signed :
    scenario.get_option "serial".toList = some ⟨"serial".toList, 4, .ot_uint32, 4⟩
    ∧ scenario.env.read_uint32_option (scenario.state [] []).eeprom
        ⟨"serial".toList, 4, .ot_uint32, 4⟩ = 2880154539
    ∧ (display scenario.env (some ⟨"serial".toList, 4, .ot_uint32, 4⟩) (scenario.state [] [])).tx
        = "0x4\t(dword:4@)\tserial\t= -1414812757".toList
    ∧ Nat.toDigits 10 2880154539 = "2880154539".toList := by
  decide

theorem atoi_narrow (text : List Char) :
    (decide (stdio.atoi text ≠ 0) = decide (stdio.parse_long text % 65536 ≠ 0))
    ∧ stdio.atoi text % 256 = stdio.parse_long text % 256
    ∧ stdio.atol text % 65536 = stdio.parse_long text % 65536
    ∧ stdio.atol text % 4294967296 = stdio.parse_long text % 4294967296 := by
  unfold stdio.atoi stdio.atol
  generalize stdio.parse_long text = p
  refine ⟨?_, by omega, by omega, by omega⟩
  by_cases h : p % 65536 = 0
  · have : (p + 32768) % 65536 - 32768 = 0 := by omega
    simp [h, this]
  · have : (p + 32768) % 65536 - 32768 ≠ 0 := by omega
    simp [h, this]

theorem digits_value_no_digit (cs : List Char) (h : (cs.headD ' ').isDigit = false) :
    stdio.digits_value 0 cs = 0 := by
  cases cs with
  | nil => rfl
  | cons c rest =>
    have hc : c.isDigit = false := h
    simp [stdio.digits_value, hc]

theorem parse_long_no_number (text : List Char) (h : stdio.has_number text = false) :
    stdio.parse_long text = 0 := by
  unfold stdio.has_number at h
  unfold stdio.parse_long
  split <;> split at h <;> simp_all [digits_value_no_digit]

theorem set_value_eq (env : Extern) (o : settings.option_t) (name value : List Char)
    (eeprom : Nat → Nat)
    (hty : o.type = .ot_bool ∨ o.type = .ot_uint8 ∨ o.type = .ot_uint16 ∨ o.type = .ot_uint32) :
    set_value env o name value eeprom
      = number_written env o name (stdio.parse_long value) eeprom := by
  obtain ⟨h1, h2, h3, h4⟩ := atoi_narrow value
  unfold set_value number_written
  rcases hty with h | h | h | h <;> rw [h] <;> simp only [h1, h2, h3, h4]

/-- C9 as stated fails: the malformed texts `12abc` and `-1` given for the 8-bit option
`brightness` (stored at address 1) do not write zero; `atoi` reads the leading number,
and 12 and 255 are stored. -/
theorem set_writes_leading_number :
    ((set scenario.env (scenario.state "opt s brightness 12abc".toList [])).map
        fun s => s.eeprom 1) = some 12
    ∧ ((set scenario.env (scenario.state "opt s brightness -1".toList [])).map
        fun s => s.eeprom 1) = some 255
    ∧ ((set scenario.env (scenario.state "opt s brightness 12abc".toList [])).map
        fun s => s.eeprom 1) ≠ some 0 := by
  decide

/-- C9, amended: for every numeric option type and every value text, `set` surfaces no
error and writes the number that `atoi` or `atol` reads at the start of the text (blanks,
at most one sign, decimal digits), narrowed to the type of the option; that number is
zero when the text does not start with a number. -/
theorem set_writes_parsed_number (env : Extern) (s : State) (name_arg value : List Char)
    (o : settings.option_t)
    (h2 : env.argument s.line 2 = some name_arg)
    (h3 : env.argument s.line 3 = some value)
    (ho : env.get_option (env.read_argument name_arg) = some o)
    (hty : o.type = .ot_bool ∨ o.type = .ot_uint8 ∨ o.type = .ot_uint16 ∨ o.type = .ot_uint32) :
    set env s = some (display env (some o)
        { s with eeprom := (number_written env o (env.read_argument name_arg)
            (stdio.parse_long value) s.eeprom) })
    ∧ (stdio.has_number value = false → stdio.parse_long value = 0) := by
  refine ⟨?_, parse_long_no_number value⟩
  unfold set
  simp only [h2, h3, ho]
  rw [set_value_eq env o _ value s.eeprom hty]

/-- Instance of `set_writes_parsed_number`: `opt s brightness 12abc`. -/
theorem set_writes_parsed_number_witness :
    scenario.env.argument (scenario.state "opt s brightness 12abc".toList []).line 2
        = some "brightness 12abc".toList
    ∧ scenario.env.argument (scenario.state "opt s brightness 12abc".toList []).line 3
        = some "12abc".toList
    ∧ scenario.env.get_option (scenario.env.read_argument "brightness 12abc".toList)
        = some ⟨"brightness".toList, 1, .ot_uint8, 1⟩
    ∧ set scenario.env (scenario.state "opt s brightness 12abc".toList [])
        = some (display scenario.env (some ⟨"brightness".toList, 1, .ot_uint8, 1⟩)
          { (scenario.state "opt s brightness 12abc".toList []) with
            eeprom := (number_written scenario.env ⟨"brightness".toList, 1, .ot_uint8, 1⟩
              (scenario.env.read_argument "brightness 12abc".toList)
              (stdio.parse_long "12abc".toList)
              (scenario.state "opt s brightness 12abc".toList []).eeprom) })
    ∧ (stdio.has_number "12abc".toList = false → stdio.parse_long "12abc".toList = 0) :=
  ⟨by decide, by decide, by decide,
    set_writes_parsed_number scenario.env (scenario.state "opt s brightness 12abc".toList [])
      "brightness 12abc".toList "12abc".toList ⟨"brightness".toList, 1, .ot_uint8, 1⟩
      (by decide) (by decide) (by decide) (Or.inr (Or.inl rfl))⟩

end console.commands.opt

/-! ## The dispatcher -/

namespace stdio

theorem tolower_eq_nul (c : Char) : tolower c = Char.ofNat 0 ↔ c = Char.ofNat 0 := by
  unfold tolower
  split
  · rename_i h
    obtain ⟨h1, h2⟩ := h
    have h1n : 65 ≤ c.toNat := h1
    have h2n : c.toNat ≤ 90 := h2
    constructor
    · intro h
      exfalso
      have : (Char.ofNat (c.toNat + 32)).toNat = 0 := by rw [h]; rfl
      interval_cases hc : c.toNat <;> revert this <;> decide
    · intro h
      rw [h] at h1n
      exact absurd h1n (by decide)
  · exact Iff.rfl

theorem toNat_sub_eq_zero (a b : Char) : ((a.toNat : Int) - (b.toNat : Int) = 0) ↔ a = b := by
  constructor
  · intro h
    have h1 : a.toNat = b.toNat := by omega
    apply Char.ext
    apply UInt32.ext
    exact h1
  · intro h
    rw [h]
    omega

theorem strncasecmp_P_eq_zero (size : Nat) :
    ∀ (cmd name : List Char), size ≤ cmd.length →
      (∀ c ∈ cmd.take size, c ≠ Char.ofNat 0) →
      (strncasecmp_P cmd name size = 0 ↔ name_matches name cmd size = true) := by
  induction size with
  | zero => intro cmd name _ _; simp [strncasecmp_P, name_matches]
  | succ n ih =>
    intro cmd name hlen hnul
    cases cmd with
    | nil => simp at hlen
    | cons c cs =>
      have hc : c ≠ Char.ofNat 0 := hnul c (by simp)
      have hc1 : tolower c ≠ Char.ofNat 0 := fun h => hc ((tolower_eq_nul c).mp h)
      have hcs : ∀ x ∈ cs.take n, x ≠ Char.ofNat 0 := by
        intro x hx
        exact hnul x (by simp [hx])
      have hlen2 : n ≤ cs.length := by simpa using hlen
      cases name with
      | nil =>
        have h0 : tolower (Char.ofNat 0) = Char.ofNat 0 := by decide
        have hne : ¬ ((tolower c).toNat : Int) - ((Char.ofNat 0).toNat : Int) = 0 := by
          rw [toNat_sub_eq_zero]; exact hc1
        have h00 : (Char.ofNat 0).toNat = 0 := rfl
        have hz : ¬ (tolower c).toNat = 0 := by
          rw [h00] at hne
          omega
        simp [strncasecmp_P, name_matches, h0, hc1, hz]
      | cons d ds =>
        by_cases heq : tolower c = tolower d
        · have hd : tolower d ≠ Char.ofNat 0 := by rw [← heq]; exact hc1
          have := ih cs ds hlen2 hcs
          simp [strncasecmp_P, name_matches, heq, hd] at this ⊢
          exact this
        · have hne : ¬ ((tolower c).toNat : Int) - ((tolower d).toNat : Int) = 0 := by
            rw [toNat_sub_eq_zero]; exact heq
          have heq2 : ¬ tolower d = tolower c := fun h => heq h.symm
          simp [strncasecmp_P, name_matches, heq, hne, heq2]

end stdio

namespace console.commands

theorem exec_from_eq (cmd : List Char) (size : Nat) (s : State)
    (hsize : size ≤ cmd.length) (hnul : ∀ c ∈ cmd.take size, c ≠ Char.ofNat 0) :
    ∀ table : List command_t,
      exec_from cmd size table s
        = match table.find? (fun e => stdio.name_matches e.cmd_p cmd size) with
          | some e => (e.exec s).map fun s1 => (true, s1)
          | none => some (false, s) := by
  intro table
  induction table with
  | nil => rfl
  | cons e rest ih =>
    have hiff := stdio.strncasecmp_P_eq_zero size cmd e.cmd_p hsize hnul
    by_cases hm : stdio.name_matches e.cmd_p cmd size = true
    · have h0 : stdio.strncasecmp_P cmd e.cmd_p size = 0 := hiff.mpr hm
      simp [exec_from, h0, List.find?_cons, hm]
    · have h0 : ¬ stdio.strncasecmp_P cmd e.cmd_p size = 0 := fun h => hm (hiff.mp h)
      have hm2 : stdio.name_matches e.cmd_p cmd size = false := by simpa using hm
      simp only [exec_from, h0, if_false, List.find?_cons, hm2]
      exact ih

theorem values_names (env : Extern) :
    (values env).map (fun e => e.cmd_p)
      = ["font".toList, "reset".toList, "eeprom".toList, "opt".toList, "info".toList,
         "help".toList, "exit".toList, "reboot".toList] := rfl

theorem find_e (env : Extern) :
    ((values env).find? fun e => stdio.name_matches e.cmd_p "e".toList 1).map (fun e => e.cmd_p)
      = some "eeprom".toList := by
  have h1 : stdio.name_matches font.command "e".toList 1 = false := by decide
  have h2 : stdio.name_matches reset.command "e".toList 1 = false := by decide
  have h3 : stdio.name_matches eeprom.command "e".toList 1 = true := by decide
  unfold values
  simp only [List.find?_cons, h1, h2, h3]
  rfl

theorem find_re (env : Extern) :
    ((values env).find? fun e => stdio.name_matches e.cmd_p "re".toList 2).map (fun e => e.cmd_p)
      = some "reset".toList := by
  have h1 : stdio.name_matches font.command "re".toList 2 = false := by decide
  have h2 : stdio.name_matches reset.command "re".toList 2 = true := by decide
  unfold values
  simp only [List.find?_cons, h1, h2]
  rfl

/-- C3 as stated fails: for the token `reboot` the entry `reboot` is the first that
matches, and `exec` does not return `true`; its handler never returns. -/
theorem exec_reboot_never_returns :
    (exec scenario.env "reboot".toList 6 (scenario.state "reboot".toList [])).isSome = false
    ∧ stdio.name_matches reboot.command "reboot".toList 6 = true
    ∧ ((values scenario.env).find? fun e =>
        stdio.name_matches e.cmd_p "reboot".toList 6).map (fun e => e.cmd_p)
        = some "reboot".toList := by
  decide

/-- C3, amended: for every token (the first `size` characters of `cmd`, none of them
NUL), `exec` calls exactly the handler of the first entry of the table, in the declared
order font, reset, eeprom, opt, info, help, exit, reboot, whose name equals the token
without regard to case over the length of the token, and returns `true` when that handler
returns (the handler of `reboot` never does); it returns `false` without calling a
handler exactly when no entry matches.  The token `e` selects `eeprom` and the token `re`
selects `reset`. -/
theorem exec_calls_first_match (env : Extern) (cmd : List Char) (size : Nat) (s : State)
    (hsize : size ≤ cmd.length) (hnul : ∀ c ∈ cmd.take size, c ≠ Char.ofNat 0) :
    exec env cmd size s
      = (match (values env).find? (fun e => stdio.name_matches e.cmd_p cmd size) with
        | some e => (e.exec s).map fun s1 => (true, s1)
        | none => some (false, s))
    ∧ (values env).map (fun e => e.cmd_p)
      = ["font".toList, "reset".toList, "eeprom".toList, "opt".toList, "info".toList,
         "help".toList, "exit".toList, "reboot".toList]
    ∧ ((values env).find? fun e => stdio.name_matches e.cmd_p "e".toList 1).map
        (fun e => e.cmd_p) = some "eeprom".toList
    ∧ ((values env).find? fun e => stdio.name_matches e.cmd_p "re".toList 2).map
        (fun e => e.cmd_p) = some "reset".toList :=
  ⟨exec_from_eq cmd size s hsize hnul (values env), values_names env, find_e env, find_re env⟩

/-- Instance of `exec_calls_first_match`: the token `e` of the line `e d`. -/
theorem exec_calls_first_match_witness :
    1 ≤ "e d".toList.length
    ∧ (∀ c ∈ "e d".toList.take 1, c ≠ Char.ofNat 0)
    ∧ exec scenario.env "e d".toList 1 (scenario.state "e d".toList [])
      = (eeprom.dump scenario.env (scenario.state "e d".toList [])).map
          (fun s1 => (true, s1)) :=
  ⟨by decide, by decide,
    (exec_calls_first_match scenario.env "e d".toList 1 (scenario.state "e d".toList [])
      (by decide) (by decide)).1.trans rfl⟩

end console.commands

namespace console

theorem take_length_takeWhile (p : Char → Bool) :
    ∀ l : List Char, l.take (l.takeWhile p).length = l.takeWhile p := by
  intro l
  induction l with
  | nil => rfl
  | cons x xs ih =>
    by_cases hx : p x = true
    · simp [List.takeWhile_cons, hx, ih]
    · simp [List.takeWhile_cons, hx]

theorem token_size_spec (command : List Char) (size : Nat)
    (h : token_size command = some size) :
    size ≤ command.length ∧ ∀ c ∈ command.take size, c ≠ Char.ofNat 0 := by
  unfold token_size at h
  simp only [] at h
  split at h
  · have hs : (command.takeWhile fun c => decide (c ≠ Char.ofNat 0 ∧ c ≠ ' ')).length = size := by
      simpa using h
    constructor
    · rw [← hs]
      exact (List.takeWhile_sublist _).length_le
    · intro c hc
      rw [← hs, take_length_takeWhile] at hc
      have := List.mem_takeWhile_imp hc
      simp at this
      exact this.1
  · simp at h

theorem process_eq (env : Extern) (s : State) (command : List Char) (size : Nat)
    (h0 : env.argument s.line 0 = some command) (hs : token_size command = some size) :
    process env s
      = match (commands.values env).find? (fun e => stdio.name_matches e.cmd_p command size) with
        | some e => e.exec s
        | none => some { s with tx := s.tx ++ "Invalid command".toList } := by
  obtain ⟨h1, h2⟩ := token_size_spec command size hs
  unfold process
  simp only [h0, hs, commands.exec]
  rw [commands.exec_from_eq command size s h1 h2]
  cases (commands.values env).find? (fun e => stdio.name_matches e.cmd_p command size) with
  | none => rfl
  | some e =>
    simp only [Option.map_map]
    cases e.exec s <;> rfl

theorem token_size_of_le (command : List Char)
    (hlen : (command.takeWhile fun c => c ≠ Char.ofNat 0 ∧ c ≠ ' ').length ≤ 255) :
    token_size command
      = some (command.takeWhile fun c => c ≠ Char.ofNat 0 ∧ c ≠ ' ').length := by
  unfold token_size
  simp only []
  rw [if_pos hlen]

/-- C10: for every line whose first token has at most 255 characters (the range of the
`uint8_t` counter of the scan), the scan of `process` ends; when the token matches no
entry of the command table without regard to case over its length, `process` runs no
handler and sends exactly `Invalid command`; the running flag, the EEPROM and the rest of
the state are unchanged.  When some entry matches, `process` does what the handler of the
first matching entry does and sends nothing of its own, so `Invalid command` is not
emitted. -/
theorem process_invalid_command (env : Extern) (s : State) (command : List Char)
    (h0 : env.argument s.line 0 = some command)
    (hlen : (command.takeWhile fun c => c ≠ Char.ofNat 0 ∧ c ≠ ' ').length ≤ 255) :
    ((∀ e ∈ commands.values env, stdio.name_matches e.cmd_p command
        (command.takeWhile fun c => c ≠ Char.ofNat 0 ∧ c ≠ ' ').length = false) →
      process env s = some { s with tx := s.tx ++ "Invalid command".toList })
    ∧ (∀ e, (commands.values env).find? (fun e => stdio.name_matches e.cmd_p command
        (command.takeWhile fun c => c ≠ Char.ofNat 0 ∧ c ≠ ' ').length)
        = some e → process env s = e.exec s) := by
  have h := process_eq env s command _ h0 (token_size_of_le command hlen)
  constructor
  · intro hno
    have hnone : (commands.values env).find?
        (fun e => stdio.name_matches e.cmd_p command
          (command.takeWhile fun c => c ≠ Char.ofNat 0 ∧ c ≠ ' ').length) = none := by
      rw [List.find?_eq_none]
      intro e he
      simp only [hno e he, Bool.false_eq_true, not_false_eq_true]
    rw [h, hnone]
  · intro e he
    rw [h, he]

/-- Instance of `process_invalid_command`: the line `bogus 1`. -/
theorem process_invalid_command_witness :
    scenario.env.argument (scenario.state "bogus 1".toList []).line 0 = some "bogus 1".toList
    ∧ ("bogus 1".toList.takeWhile fun c => c ≠ Char.ofNat 0 ∧ c ≠ ' ').length ≤ 255
    ∧ process scenario.env (scenario.state "bogus 1".toList [])
      = some { (scenario.state "bogus 1".toList []) with
          tx := (scenario.state "bogus 1".toList []).tx ++ "Invalid command".toList } :=
  ⟨by decide, by decide,
    (process_invalid_command scenario.env (scenario.state "bogus 1".toList [])
      "bogus 1".toList (by decide) (by decide)).1 (by decide)⟩

end console

/-! ## Unknown options and sub-arguments -/

namespace console.commands.opt

/-- C11: when the settings look-up finds no option of the given name, `opt get` and
`opt set` each send exactly `Unknown option`; `set` calls no write operation, and the
EEPROM and the rest of the state are unchanged. -/
theorem unknown_option (env : Extern) (sg ss : State) (name name_arg value : List Char)
    (hg2 : env.argument sg.line 2 = some name)
    (hgn : env.get_option name = none)
    (hs2 : env.argument ss.line 2 = some name_arg)
    (hs3 : env.argument ss.line 3 = some value)
    (hsn : env.get_option (env.read_argument name_arg) = none) :
    get env sg = some { sg with tx := sg.tx ++ "Unknown option".toList }
    ∧ set env ss = some { ss with tx := ss.tx ++ "Unknown option".toList } := by
  constructor
  · unfold get
    simp only [hg2, hgn]
    rfl
  · unfold set
    simp only [hs2, hs3, hsn]
    rfl

/-- Instance of `unknown_option`: the lines `opt g nosuch` and `opt s nosuch 1`. -/
theorem unknown_option_witness :
    scenario.env.argument (scenario.state "opt g nosuch".toList []).line 2 = some "nosuch".toList
    ∧ scenario.env.get_option "nosuch".toList = none
    ∧ scenario.env.argument (scenario.state "opt s nosuch 1".toList []).line 2
        = some "nosuch 1".toList
    ∧ scenario.env.argument (scenario.state "opt s nosuch 1".toList []).line 3 = some "1".toList
    ∧ scenario.env.get_option (scenario.env.read_argument "nosuch 1".toList) = none
    ∧ get scenario.env (scenario.state "opt g nosuch".toList [])
        = some { (scenario.state "opt g nosuch".toList []) with
            tx := (scenario.state "opt g nosuch".toList []).tx ++ "Unknown option".toList }
    ∧ set scenario.env (scenario.state "opt s nosuch 1".toList [])
        = some { (scenario.state "opt s nosuch 1".toList []) with
            tx := (scenario.state "opt s nosuch 1".toList []).tx ++ "Unknown option".toList } :=
  ⟨by decide, by decide, by decide, by decide, by decide,
    unknown_option scenario.env (scenario.state "opt g nosuch".toList [])
      (scenario.state "opt s nosuch 1".toList []) "nosuch".toList "nosuch 1".toList "1".toList
      (by decide) (by decide) (by decide) (by decide) (by decide)⟩

end console.commands.opt

namespace console.commands

/-- C15: in `font`, `eeprom` and `opt` the action depends only on the first character `c`
of token 1 and is the same for the upper-case and the lower-case letter; without token 1
each handler sends its usage text and does nothing else. -/
theorem sub_argument_letters (env : Extern) (s s0 : State) (c : Char) (rest : List Char)
    (h : env.argument s.line 1 = some (c :: rest))
    (h0 : env.argument s0.line 1 = none) :
    (((c = 'u' ∨ c = 'U') → font.exec env s = font.upload env s)
      ∧ ((c = 'd' ∨ c = 'D') → font.exec env s = some (font.download env s))
      ∧ ((c = 'd' ∨ c = 'D') → eeprom.exec env s = eeprom.dump env s)
      ∧ ((c = 'r' ∨ c = 'R') → eeprom.exec env s = eeprom.read env s)
      ∧ ((c = 'w' ∨ c = 'W') → eeprom.exec env s = eeprom.write env s)
      ∧ ((c = 'l' ∨ c = 'L') → opt.exec env s = opt.list env s)
      ∧ ((c = 'g' ∨ c = 'G') → opt.exec env s = opt.get env s)
      ∧ ((c = 's' ∨ c = 'S') → opt.exec env s = opt.set env s))
    ∧ font.exec env s0
        = some { s0 with tx := s0.tx ++ "Args: u - upload, d - download".toList }
    ∧ eeprom.exec env s0
        = some { s0 with tx := s0.tx ++ "Args: d - dump, r - read, w - write".toList }
    ∧ opt.exec env s0
        = some { s0 with tx := s0.tx ++ "Args: l - list, g - get, s - set".toList } := by
  refine ⟨⟨?_, ?_, ?_, ?_, ?_, ?_, ?_, ?_⟩, ?_, ?_, ?_⟩
  · rintro (rfl | rfl) <;> simp [font.exec, h]
  · rintro (rfl | rfl) <;> simp [font.exec, h]
  · rintro (rfl | rfl) <;> simp [eeprom.exec, h]
  · rintro (rfl | rfl) <;> simp [eeprom.exec, h]
  · rintro (rfl | rfl) <;> simp [eeprom.exec, h]
  · rintro (rfl | rfl) <;> simp [opt.exec, h]
  · rintro (rfl | rfl) <;> simp [opt.exec, h]
  · rintro (rfl | rfl) <;> simp [opt.exec, h]
  · simp [font.exec, h0, CONSOLE_UART.send_string]
  · simp [eeprom.exec, h0, CONSOLE_UART.send_string]
  · simp [opt.exec, h0, CONSOLE_UART.send_string]

/-- Instance of `sub_argument_letters`: the lines `eeprom D` and `eeprom`. -/
theorem sub_argument_letters_witness :
    scenario.env.argument (scenario.state "eeprom D".toList []).line 1 = some ('D' :: [])
    ∧ scenario.env.argument (scenario.state "eeprom".toList []).line 1 = none
    ∧ eeprom.exec scenario.env (scenario.state "eeprom D".toList [])
        = eeprom.dump scenario.env (scenario.state "eeprom D".toList [])
    ∧ eeprom.exec scenario.env (scenario.state "eeprom".toList [])
        = some { (scenario.state "eeprom".toList []) with
            tx := (scenario.state "eeprom".toList []).tx
              ++ "Args: d - dump, r - read, w - write".toList } :=
  ⟨by decide, by decide,
    (sub_argument_letters scenario.env (scenario.state "eeprom D".toList [])
      (scenario.state "eeprom".toList []) 'D' [] (by decide) (by decide)).1.2.2.1 (Or.inr rfl),
    (sub_argument_letters scenario.env (scenario.state "eeprom D".toList [])
      (scenario.state "eeprom".toList []) 'D' [] (by decide) (by decide)).2.2.1⟩

/-- C17: with a sub-argument whose first character `c` is none of `u`, `U`, `d`, `D`,
`font::exec` returns the state as it is: nothing is sent, nothing is read, no chip call is
made.  Its usage text is sent only without a sub-argument, whereas `eeprom::exec` and
`opt::exec` send theirs for every letter they do not know. -/
theorem font_exec_silent (env : Extern) (s : State) (c : Char) (rest : List Char)
    (harg : env.argument s.line 1 = some (c :: rest))
    (hc : c ≠ 'u' ∧ c ≠ 'U' ∧ c ≠ 'd' ∧ c ≠ 'D') :
    font.exec env s = some s
    ∧ ((c ≠ 'r' ∧ c ≠ 'R' ∧ c ≠ 'w' ∧ c ≠ 'W') →
        eeprom.exec env s
          = some { s with tx := s.tx ++ "Args: d - dump, r - read, w - write".toList })
    ∧ ((c ≠ 'l' ∧ c ≠ 'L' ∧ c ≠ 'g' ∧ c ≠ 'G' ∧ c ≠ 's' ∧ c ≠ 'S') →
        opt.exec env s
          = some { s with tx := s.tx ++ "Args: l - list, g - get, s - set".toList })
    ∧ ∀ s0 : State, env.argument s0.line 1 = none →
        font.exec env s0
          = some { s0 with tx := s0.tx ++ "Args: u - upload, d - download".toList } := by
  obtain ⟨h1, h2, h3, h4⟩ := hc
  refine ⟨?_, ?_, ?_, ?_⟩
  · simp [font.exec, harg, h1, h2, h3, h4]
  · rintro ⟨h5, h6, h7, h8⟩
    simp [eeprom.exec, harg, h3, h4, h5, h6, h7, h8, CONSOLE_UART.send_string]
  · rintro ⟨h5, h6, h7, h8, h9, h10⟩
    simp [opt.exec, harg, h5, h6, h7, h8, h9, h10, CONSOLE_UART.send_string]
  · intro s0 h0
    simp [font.exec, h0, CONSOLE_UART.send_string]

/-- Instance of `font_exec_silent`: the line `font x`. -/
theorem font_exec_silent_witness :
    scenario.env.argument (scenario.state "font x".toList []).line 1 = some ('x' :: [])
    ∧ ('x' ≠ 'u' ∧ 'x' ≠ 'U' ∧ 'x' ≠ 'd' ∧ 'x' ≠ 'D')
    ∧ font.exec scenario.env (scenario.state "font x".toList [])
        = some (scenario.state "font x".toList []) :=
  ⟨by decide, by decide,
    (font_exec_silent scenario.env (scenario.state "font x".toList []) 'x' []
      (by decide) (by decide)).1⟩

end console.commands

/-! ## Raw transfer of the EEPROM -/

namespace console.commands.eeprom

theorem read_eq (env : Extern) (s : State) (h : env.EEPROM_SIZE ≤ 65535) :
    read env s = some (CONSOLE_UART.send_string
      ((List.range env.EEPROM_SIZE).map fun a => Char.ofNat (s.eeprom a % 256)) s) := by
  unfold read for_u16
  rw [if_pos h]
  have hb : ∀ (addr : Nat) (s1 : State),
      (fun addr s1 => some (CONSOLE_UART.send (Char.ofNat (eeprom_read_byte s1 addr)) s1)) addr s1
      = some ((fun addr s1 =>
          CONSOLE_UART.send_string [Char.ofNat (s1.eeprom addr % 256)] s1) addr s1) := by
    intro addr s1
    rfl
  rw [loopM_some _ _ hb, loop_send_string (fun st a => [Char.ofNat (st.eeprom a % 256)]) _
    (fun _ _ => rfl) (fun _ _ _ => rfl), ← List.range_eq_range']
  congr 2
  induction (List.range env.EEPROM_SIZE) with
  | nil => rfl
  | cons x xs ih => simp [List.flatMap_cons, ih]

/-- The step of the loop of `write`. -/
theorem write_loop (n : Nat) :
    ∀ (start : Nat) (s : State), n ≤ (data_bytes s.rx).length →
      ∃ rx1, loopM (fun addr s1 =>
            (console.read s1.rx).map fun q =>
              ({ s1 with rx := q.2, eeprom := fun a => if a = addr then q.1 else s1.eeprom a }
                : State)) start n s
          = some { s with
              rx := rx1
              eeprom := fun a =>
                if start ≤ a ∧ a < start + n then (data_bytes s.rx).getD (a - start) 0
                else s.eeprom a }
        ∧ data_bytes rx1 = (data_bytes s.rx).drop n := by
  induction n with
  | zero =>
    intro start s _
    refine ⟨s.rx, ?_, rfl⟩
    simp only [loopM]
    congr 1
    cases s
    simp only [State.mk.injEq, true_and, and_true]
    funext a
    have hno : ¬ (start ≤ a ∧ a < start + 0) := by omega
    rw [if_neg hno]
  | succ n ih =>
    intro start s h
    cases hd : data_bytes s.rx with
    | nil => rw [hd] at h; simp at h
    | cons d ds =>
      obtain ⟨rx1, h1, h2⟩ := read_data_bytes s.rx d ds hd
      have hn : n ≤ (data_bytes ({ s with
          rx := rx1, eeprom := fun a => if a = start then d else s.eeprom a } : State).rx).length := by
        show n ≤ (data_bytes rx1).length
        rw [h2]; rw [hd] at h; simpa using h
      obtain ⟨rx2, h3, h4⟩ := ih (start + 1) _ hn
      refine ⟨rx2, ?_, ?_⟩
      · simp only [loopM, h1, Option.map_some', Option.some_bind]
        rw [h3]
        congr 1
        simp only [State.mk.injEq, true_and, and_true]
        funext a
        show (if start + 1 ≤ a ∧ a < start + 1 + n then (data_bytes rx1).getD (a - (start + 1)) 0
          else if a = start then d else s.eeprom a) = _
        rw [h2]
        by_cases ha : a = start
        · subst ha
          have c1 : ¬ (a + 1 ≤ a ∧ a < a + 1 + n) := by omega
          have c2 : a ≤ a ∧ a < a + (n + 1) := by omega
          simp [c1, c2]
        · by_cases hr : start + 1 ≤ a ∧ a < start + 1 + n
          · have c2 : start ≤ a ∧ a < start + (n + 1) := by omega
            have c3 : a - start = (a - (start + 1)) + 1 := by omega
            simp [hr, c2, c3]
          · have c2 : ¬ (start ≤ a ∧ a < start + (n + 1)) := by omega
            simp [hr, c2, ha]
      · rw [h4]
        show (data_bytes rx1).drop n = _
        rw [h2]
        simp

end console.commands.eeprom

theorem map_getD_range (l : List Nat) :
    ∀ n : Nat, n ≤ l.length → (List.range n).map (fun a => l.getD a 0) = l.take n := by
  induction l with
  | nil => intro n h; have : n = 0 := by simpa using h
           subst this; rfl
  | cons x xs ih =>
    intro n h
    cases n with
    | zero => rfl
    | succ n =>
      have hn : n ≤ xs.length := by simpa using h
      rw [List.range_succ_eq_map, List.map_cons, List.map_map, List.take_succ_cons]
      have := ih n hn
      simp only [Function.comp_def, List.getD_cons_succ, List.getD_cons_zero]
      rw [this]

set_option maxRecDepth 100000 in
theorem toNat_ofNat_byte (b : Nat) (h : b < 256) : (Char.ofNat b).toNat = b := by
  have key : ∀ b : Nat, b < 256 → (Char.ofNat b).toNat = b := by decide
  exact key b h

namespace console

theorem data_bytes_lt (rx : List Nat) : ∀ x ∈ data_bytes rx, x < 256 := by
  intro x hx
  simp only [data_bytes, List.mem_map] at hx
  obtain ⟨r, _, rfl⟩ := hx
  omega

end console

namespace console.commands.eeprom

theorem write_eq (env : Extern) (s : State) (hsize : env.EEPROM_SIZE ≤ 65535)
    (hin : env.EEPROM_SIZE ≤ (data_bytes s.rx).length) :
    ∃ rx1, write env s = some { s with
          rx := rx1
          eeprom := fun a =>
            if a < env.EEPROM_SIZE then (data_bytes s.rx).getD a 0 else s.eeprom a }
      ∧ data_bytes rx1 = (data_bytes s.rx).drop env.EEPROM_SIZE := by
  obtain ⟨rx1, h1, h2⟩ := write_loop env.EEPROM_SIZE 0 s hin
  refine ⟨rx1, ?_, h2⟩
  unfold write for_u16
  rw [if_pos hsize, h1]
  congr 1
  simp only [State.mk.injEq, true_and, and_true]
  funext a
  simp

/-- C13: with `EEPROM_SIZE` in the range of the 16-bit address counter, `read` sends the
`EEPROM_SIZE` bytes of the store in address order and leaves the store as it is; `write`,
given at least `EEPROM_SIZE` data bytes, consumes exactly the first `EEPROM_SIZE` of them
and stores byte `a` at address `a`.  Writing back what `read` sent leaves every byte of
the store as it was, and a `read` after a `write` sends the bytes written. -/
theorem eeprom_transfer (env : Extern) (s sw : State) (hsize : env.EEPROM_SIZE ≤ 65535)
    (hin : env.EEPROM_SIZE ≤ (data_bytes sw.rx).length) :
    read env s = some { s with
        tx := s.tx ++ ((List.range env.EEPROM_SIZE).map fun a => Char.ofNat (s.eeprom a % 256)) }
    ∧ (∃ rx1, write env sw = some { sw with
          rx := rx1
          eeprom := fun a =>
            if a < env.EEPROM_SIZE then (data_bytes sw.rx).getD a 0 else sw.eeprom a }
        ∧ data_bytes rx1 = (data_bytes sw.rx).drop env.EEPROM_SIZE)
    ∧ (∃ s1 s2, read env s = some s1
        ∧ write env { s1 with rx := (s1.tx.drop s.tx.length).map Char.toNat } = some s2
        ∧ data_bytes s2.rx = []
        ∧ (∀ a, eeprom_read_byte s2 a = eeprom_read_byte s a)
        ∧ ((∀ a, s.eeprom a < 256) → s2.eeprom = s.eeprom))
    ∧ (∃ s1 s2, write env sw = some s1 ∧ read env s1 = some s2
        ∧ s2.tx = s1.tx ++ ((data_bytes sw.rx).take env.EEPROM_SIZE).map Char.ofNat
        ∧ s2.eeprom = s1.eeprom) := by
  have hread := read_eq env s hsize
  obtain ⟨rx1, hw1, hw2⟩ := write_eq env sw hsize hin
  refine ⟨hread, ⟨rx1, hw1, hw2⟩, ?_, ?_⟩
  · -- what `read` sent, received again
    have hb : ∀ r ∈ (List.range env.EEPROM_SIZE).map (fun a => s.eeprom a % 256), r < 256 := by
      intro r hr
      simp only [List.mem_map] at hr
      obtain ⟨a, _, rfl⟩ := hr
      exact Nat.mod_lt _ (by omega)
    have hdb := console.data_bytes_of_lt _ hb
    have hst : ({ (CONSOLE_UART.send_string
          ((List.range env.EEPROM_SIZE).map fun a => Char.ofNat (s.eeprom a % 256)) s) with
          rx := ((CONSOLE_UART.send_string
            ((List.range env.EEPROM_SIZE).map fun a => Char.ofNat (s.eeprom a % 256)) s).tx.drop
              s.tx.length).map Char.toNat } : State)
        = { s with
            rx := (List.range env.EEPROM_SIZE).map (fun a => s.eeprom a % 256)
            tx := s.tx ++ ((List.range env.EEPROM_SIZE).map
              fun a => Char.ofNat (s.eeprom a % 256)) } := by
      simp only [CONSOLE_UART.send_string, List.drop_left, List.map_map, State.mk.injEq,
        and_true, true_and]
      apply List.map_congr_left
      intro a _
      exact toNat_ofNat_byte _ (Nat.mod_lt _ (by omega))
    obtain ⟨rx2, hw3, hw4⟩ := write_eq env
      ({ s with
          rx := (List.range env.EEPROM_SIZE).map (fun a => s.eeprom a % 256)
          tx := s.tx ++ ((List.range env.EEPROM_SIZE).map
            fun a => Char.ofNat (s.eeprom a % 256)) } : State) hsize
      (by show _ ≤ (data_bytes ((List.range env.EEPROM_SIZE).map
            (fun a => s.eeprom a % 256))).length
          rw [hdb]; simp)
    have hw5 : data_bytes rx2 = [] := by
      rw [hw4]
      show (data_bytes ((List.range env.EEPROM_SIZE).map (fun a => s.eeprom a % 256))).drop _ = []
      rw [hdb]
      simp
    have hcell : ∀ a, (if a < env.EEPROM_SIZE then
          (data_bytes ((List.range env.EEPROM_SIZE).map (fun a => s.eeprom a % 256))).getD a 0
          else s.eeprom a) % 256 = s.eeprom a % 256 := by
      intro a
      by_cases ha : a < env.EEPROM_SIZE
      · rw [if_pos ha, hdb]
        simp [List.getD_eq_getElem?_getD, ha]
      · rw [if_neg ha]
    refine ⟨_,
        { rx := rx2
          tx := s.tx ++ ((List.range env.EEPROM_SIZE).map fun a => Char.ofNat (s.eeprom a % 256))
          line := s.line
          running := s.running
          eeprom := fun a => if a < env.EEPROM_SIZE then
            (data_bytes ((List.range env.EEPROM_SIZE).map (fun a => s.eeprom a % 256))).getD a 0
            else s.eeprom a
          glyphs := s.glyphs
          osd := s.osd }, hread, ?_, ?_, ?_, ?_⟩
    · rw [hst]; exact hw3
    · exact hw5
    · exact hcell
    · intro hbyte
      funext a
      have h1 := hcell a
      have h2 := hbyte a
      show (if a < env.EEPROM_SIZE then
          (data_bytes ((List.range env.EEPROM_SIZE).map (fun a => s.eeprom a % 256))).getD a 0
          else s.eeprom a) = s.eeprom a
      by_cases ha : a < env.EEPROM_SIZE
      · rw [if_pos ha, hdb]
        simp only [List.getD_eq_getElem?_getD, List.getElem?_map, List.getElem?_range ha,
          Option.map_some', Option.getD_some]
        exact Nat.mod_eq_of_lt h2
      · rw [if_neg ha]
  · -- what `write` stored, sent by `read`
    have hread2 := read_eq env
      ({ sw with
          rx := rx1
          eeprom := fun a =>
            if a < env.EEPROM_SIZE then (data_bytes sw.rx).getD a 0 else sw.eeprom a } : State) hsize
    refine ⟨_, _, hw1, hread2, ?_, rfl⟩
    show sw.tx ++ _ = sw.tx ++ _
    congr 1
    rw [← map_getD_range (data_bytes sw.rx) env.EEPROM_SIZE hin, List.map_map]
    apply List.map_congr_left
    intro a ha
    have ha2 : a < env.EEPROM_SIZE := List.mem_range.mp ha
    have hlt : (data_bytes sw.rx).getD a 0 < 256 := by
      have hidx : a < (data_bytes sw.rx).length := by omega
      rw [List.getD_eq_getElem?_getD, List.getElem?_eq_getElem hidx]
      exact console.data_bytes_lt sw.rx _ (List.getElem_mem hidx)
    simp only [Function.comp_def, if_pos ha2]
    rw [Nat.mod_eq_of_lt hlt]

end console.commands.eeprom

namespace console.commands.eeprom

/-- Instance of `eeprom_transfer`: the store of 32 bytes `0xAB`, and 32 received bytes
`0x07` for the write. -/
theorem eeprom_transfer_witness :
    scenario.env.EEPROM_SIZE ≤ 65535
    ∧ scenario.env.EEPROM_SIZE ≤ (data_bytes (scenario.state [] (List.replicate 32 7)).rx).length
    ∧ read scenario.env (scenario.state [] [])
      = some { (scenario.state [] []) with
          tx := (scenario.state [] []).tx
            ++ ((List.range scenario.env.EEPROM_SIZE).map fun a =>
              Char.ofNat ((scenario.state [] []).eeprom a % 256)) }
    ∧ (∃ rx1, write scenario.env (scenario.state [] (List.replicate 32 7))
        = some { (scenario.state [] (List.replicate 32 7)) with
          rx := rx1
          eeprom := fun a =>
            if a < scenario.env.EEPROM_SIZE then
              (data_bytes (scenario.state [] (List.replicate 32 7)).rx).getD a 0
            else (scenario.state [] (List.replicate 32 7)).eeprom a }
        ∧ data_bytes rx1
          = (data_bytes (scenario.state [] (List.replicate 32 7)).rx).drop
              scenario.env.EEPROM_SIZE) :=
  ⟨by decide, by decide,
    (eeprom_transfer scenario.env (scenario.state [] []) (scenario.state [] (List.replicate 32 7))
      (by decide) (by decide)).1,
    (eeprom_transfer scenario.env (scenario.state [] []) (scenario.state [] (List.replicate 32 7))
      (by decide) (by decide)).2.1⟩

end console.commands.eeprom

/-! ## Decoding of one byte -/

namespace console.commands.font

theorem parity_bit (c : Nat) : ((c + 65536 - 48) % 65536) &&& 1 = c % 2 := by
  rw [Nat.and_one_is_mod]
  omega

theorem shift_or_bit (res bit : Nat) (h : bit < 2) : (res <<< 1) ||| bit = 2 * res + bit := by
  rw [Nat.shiftLeft_eq]
  have := Nat.mul_add_lt_is_or (show bit < 2 ^ 1 by omega) res
  simp only [pow_one] at this
  rw [Nat.mul_comm res, ← this]

theorem decode_bits_eight (c0 c1 c2 c3 c4 c5 c6 c7 : Nat) :
    decode_bits [c0, c1, c2, c3, c4, c5, c6, c7]
      = c0 % 2 * 128 + c1 % 2 * 64 + c2 % 2 * 32 + c3 % 2 * 16 + c4 % 2 * 8 + c5 % 2 * 4
        + c6 % 2 * 2 + c7 % 2 := by
  simp only [decode_bits, List.foldl_cons, List.foldl_nil, parity_bit]
  rw [shift_or_bit 0 _ (Nat.mod_lt _ (by omega))]
  rw [shift_or_bit _ (c1 % 2) (Nat.mod_lt _ (by omega))]
  rw [shift_or_bit _ (c2 % 2) (Nat.mod_lt _ (by omega))]
  rw [shift_or_bit _ (c3 % 2) (Nat.mod_lt _ (by omega))]
  rw [shift_or_bit _ (c4 % 2) (Nat.mod_lt _ (by omega))]
  rw [shift_or_bit _ (c5 % 2) (Nat.mod_lt _ (by omega))]
  rw [shift_or_bit _ (c6 % 2) (Nat.mod_lt _ (by omega))]
  rw [shift_or_bit _ (c7 % 2) (Nat.mod_lt _ (by omega))]
  omega

end console.commands.font

namespace console.commands.font

theorem take_eight (l : List Nat) (h : 8 ≤ l.length) :
    l.take 8 = [l.getD 0 0, l.getD 1 0, l.getD 2 0, l.getD 3 0, l.getD 4 0, l.getD 5 0,
      l.getD 6 0, l.getD 7 0] := by
  rcases l with _ | ⟨c0, l⟩
  · simp at h
  rcases l with _ | ⟨c1, l⟩
  · simp at h
  rcases l with _ | ⟨c2, l⟩
  · simp at h
  rcases l with _ | ⟨c3, l⟩
  · simp at h
  rcases l with _ | ⟨c4, l⟩
  · simp at h
  rcases l with _ | ⟨c5, l⟩
  · simp at h
  rcases l with _ | ⟨c6, l⟩
  · simp at h
  rcases l with _ | ⟨c7, l⟩
  · simp at h
  rfl

/-- The value of the byte built from eight characters, by their parities. -/
theorem decode_bits_take (d : List Nat) (h : 8 ≤ d.length) :
    decode_bits (d.take 8)
      = d.getD 0 0 % 2 * 128 + d.getD 1 0 % 2 * 64 + d.getD 2 0 % 2 * 32 + d.getD 3 0 % 2 * 16
        + d.getD 4 0 % 2 * 8 + d.getD 5 0 % 2 * 4 + d.getD 6 0 % 2 * 2 + d.getD 7 0 % 2 := by
  rw [take_eight d h, decode_bits_eight]

theorem decode_bits_testBit (d : List Nat) (h : 8 ≤ d.length) (k : Nat) (hk : k < 8) :
    (decode_bits (d.take 8)).testBit (7 - k) = decide (d.getD k 0 % 2 = 1) := by
  rw [decode_bits_take d h, Nat.testBit_to_div_mod, decide_eq_decide]
  interval_cases k <;> simp only [Nat.reduceSub, Nat.reducePow] <;> omega

/-- C16: `read_byte` consumes exactly ten data bytes `c0 .. c9` and returns the byte whose
bit `7 - k` is the least significant bit of `c_k`, `k = 0 .. 7`: the first character read
is the most significant bit.  No character is refused, and the result is the same for
every stream whose first eight data bytes have the same parities, whatever `c8` and `c9`
are. -/
theorem read_byte_decodes (rx : List Nat) (h : 10 ≤ (data_bytes rx).length) :
    ∃ v rx1, read_byte rx = some (v, rx1)
      ∧ data_bytes rx1 = (data_bytes rx).drop 10
      ∧ (∀ k, k < 8 → v.testBit (7 - k) = decide ((data_bytes rx).getD k 0 % 2 = 1))
      ∧ v = ((List.range 8).map fun k => (data_bytes rx).getD k 0 % 2 * 2 ^ (7 - k)).sum
      ∧ (∀ rx2, 10 ≤ (data_bytes rx2).length →
          (∀ k, k < 8 → (data_bytes rx2).getD k 0 % 2 = (data_bytes rx).getD k 0 % 2) →
          ∃ rx3, read_byte rx2 = some (v, rx3)) := by
  obtain ⟨rx1, h1, h2⟩ := read_byte_take_drop rx h
  refine ⟨_, rx1, h1, h2, ?_, ?_, ?_⟩
  · intro k hk
    exact decode_bits_testBit _ (by omega) k hk
  · rw [decode_bits_take _ (by omega)]
    simp [List.range_succ, List.sum_cons]
    omega
  · intro rx2 hlen hpar
    obtain ⟨rx3, h3, _⟩ := read_byte_take_drop rx2 hlen
    refine ⟨rx3, ?_⟩
    rw [h3, decode_bits_take _ (by omega), decode_bits_take _ (by omega),
      hpar 0 (by omega), hpar 1 (by omega), hpar 2 (by omega), hpar 3 (by omega),
      hpar 4 (by omega), hpar 5 (by omega), hpar 6 (by omega), hpar 7 (by omega)]

/-- Instance of `read_byte_decodes`: the characters `10000011`, carriage return and line
feed, between two no-data results. -/
theorem read_byte_decodes_witness :
    10 ≤ (data_bytes [0x0100, 49, 48, 48, 48, 48, 48, 49, 49, 13, 10, 0x0100, 65]).length
    ∧ ∃ v rx1, read_byte [0x0100, 49, 48, 48, 48, 48, 48, 49, 49, 13, 10, 0x0100, 65]
          = some (v, rx1)
      ∧ data_bytes rx1
          = (data_bytes [0x0100, 49, 48, 48, 48, 48, 48, 49, 49, 13, 10, 0x0100, 65]).drop 10
      ∧ (∀ k, k < 8 → v.testBit (7 - k) = decide
          ((data_bytes [0x0100, 49, 48, 48, 48, 48, 48, 49, 49, 13, 10, 0x0100, 65]).getD k 0
            % 2 = 1))
      ∧ v = ((List.range 8).map fun k =>
          (data_bytes [0x0100, 49, 48, 48, 48, 48, 48, 49, 49, 13, 10, 0x0100, 65]).getD k 0
            % 2 * 2 ^ (7 - k)).sum
      ∧ (∀ rx2, 10 ≤ (data_bytes rx2).length →
          (∀ k, k < 8 → (data_bytes rx2).getD k 0 % 2
            = (data_bytes [0x0100, 49, 48, 48, 48, 48, 48, 49, 49, 13, 10, 0x0100, 65]).getD k 0
              % 2) →
          ∃ rx3, read_byte rx2 = some (v, rx3)) :=
  ⟨by decide,
    read_byte_decodes [0x0100, 49, 48, 48, 48, 48, 48, 49, 49, 13, 10, 0x0100, 65] (by decide)⟩

end console.commands.font

/-! ## Trailing bytes of a glyph -/

theorem take_drop_eq_map_getD (d : List Nat) (k n : Nat) (h : k + n ≤ d.length) :
    (d.drop k).take n = (List.range n).map fun j => d.getD (k + j) 0 := by
  rw [← map_getD_range (d.drop k) n (by rw [List.length_drop]; omega)]
  apply List.map_congr_left
  intro j _
  simp [List.getD_eq_getElem?_getD, List.getElem?_drop]

namespace console.commands.font

/-- The writes of an upload are the same for two streams that agree outside the trailing
groups. -/
theorem glyph_writes_agree (d d2 : List Nat) (hlen : 163849 ≤ d.length)
    (hlen2 : 163849 ≤ d2.length)
    (hsame : ∀ p, in_trailing_group p = false → d.getD p 0 = d2.getD p 0) :
    ((List.range 256).map fun c => (c, (List.range 54).map fun i =>
        decode_bits ((d.drop (9 + 640 * c + 10 * i)).take 8)))
    = (List.range 256).map fun c => (c, (List.range 54).map fun i =>
        decode_bits ((d2.drop (9 + 640 * c + 10 * i)).take 8)) := by
  apply List.map_congr_left
  intro c hc
  have hc256 : c < 256 := List.mem_range.mp hc
  congr 1
  apply List.map_congr_left
  intro i hi
  have hi54 : i < 54 := List.mem_range.mp hi
  rw [take_drop_eq_map_getD d _ 8 (by omega), take_drop_eq_map_getD d2 _ 8 (by omega)]
  congr 1
  apply List.map_congr_left
  intro j hj
  have hj8 : j < 8 := List.mem_range.mp hj
  apply hsame
  unfold in_trailing_group
  have h1 : (9 + 640 * c + 10 * i + j - 9) % 640 = 10 * i + j := by omega
  simp [h1]
  omega

end console.commands.font

namespace console.commands.font

/-- The per-glyph writes of an upload, from the data bytes of its receive stream. -/
theorem upload_writes (env : Extern) (s : State) (h : 163849 ≤ (data_bytes s.rx).length) :
    ∃ s1, upload env s = some s1
      ∧ uploads s1.osd = uploads s.osd ++ ((List.range 256).map fun c =>
          (c, (List.range 54).map fun i =>
            decode_bits (((data_bytes s.rx).drop (9 + 640 * c + 10 * i)).take 8))) := by
  obtain ⟨rx1, h1, _⟩ := upload_eq env s h
  refine ⟨_, h1, ?_⟩
  show uploads ((draw env s).osd ++ _) = _
  rw [draw_osd, uploads_append, uploads_append, uploads_draw_calls, List.append_nil,
    uploads_map]
  simp [glyph_data, List.drop_drop]

/-- C19: the ten trailing lines `download` sends for every glyph are `00000000` whatever
the glyph table holds, and two upload streams of at least 163849 data bytes that agree
everywhere outside the trailing groups lead to the same 256 per-glyph writes. -/
theorem trailing_bytes_not_data (env : Extern) (s s2 : State)
    (hlen : 163849 ≤ (data_bytes s.rx).length)
    (hlen2 : 163849 ≤ (data_bytes s2.rx).length)
    (hsame : ∀ p, in_trailing_group p = false →
      (data_bytes s.rx).getD p 0 = (data_bytes s2.rx).getD p 0) :
    (∀ (glyphs : Nat → Nat → Nat) (c i : Nat), 54 ≤ i → i < 64 →
      download_line glyphs (64 * c + i) = "00000000".toList)
    ∧ (download env s).tx = s.tx ++ "MAX7456\r\n".toList
        ++ ((List.range 16384).map fun n => download_line s.glyphs n ++ ['\r', '\n']).flatten
    ∧ ∃ s1 s3 writes, upload env s = some s1 ∧ upload env s2 = some s3
        ∧ uploads s1.osd = uploads s.osd ++ writes
        ∧ uploads s3.osd = uploads s2.osd ++ writes
        ∧ writes.length = 256 := by
  refine ⟨?_, ?_, ?_⟩
  · intro glyphs c i h54 h64
    have h1 : ¬ ((64 * c + i) % 64 < 54) := by omega
    have h0 : byte_bits 0 = "00000000".toList := by decide
    simp only [download_line, h1, if_false]
    exact h0
  · rw [download_tx, download_text, List.append_assoc, List.flatMap_def]
  · obtain ⟨s1, h1, h2⟩ := upload_writes env s hlen
    obtain ⟨s3, h3, h4⟩ := upload_writes env s2 hlen2
    refine ⟨s1, s3, _, h1, h3, h2, ?_, by simp⟩
    rw [h4, glyph_writes_agree _ _ hlen hlen2 hsame]

theorem data_bytes_zeros_set :
    data_bytes ((List.replicate 163849 48).set 549 49) = (List.replicate 163849 48).set 549 49 := by
  apply console.data_bytes_of_lt
  intro r hr
  rcases List.mem_or_eq_of_mem_set hr with h | h
  · rw [List.eq_of_mem_replicate h]; omega
  · rw [h]; omega

theorem data_bytes_zeros :
    data_bytes (List.replicate 163849 48) = List.replicate 163849 48 := by
  apply console.data_bytes_of_lt
  intro r hr
  rw [List.eq_of_mem_replicate hr]; omega

/-- Instance of `trailing_bytes_not_data`: 163849 characters `0`, and the same stream
with the first character of the first trailing group of glyph 0 changed to `1`. -/
theorem trailing_bytes_not_data_witness :
    163849 ≤ (data_bytes (scenario.state [] (List.replicate 163849 48)).rx).length
    ∧ 163849 ≤ (data_bytes
        (scenario.state [] ((List.replicate 163849 48).set 549 49)).rx).length
    ∧ (∀ p, in_trailing_group p = false →
        (data_bytes (scenario.state [] (List.replicate 163849 48)).rx).getD p 0
          = (data_bytes (scenario.state [] ((List.replicate 163849 48).set 549 49)).rx).getD p 0)
    ∧ ∃ s1 s3 writes,
        upload scenario.env (scenario.state [] (List.replicate 163849 48)) = some s1
        ∧ upload scenario.env (scenario.state [] ((List.replicate 163849 48).set 549 49))
            = some s3
        ∧ uploads s1.osd = uploads (scenario.state [] (List.replicate 163849 48)).osd ++ writes
        ∧ uploads s3.osd
            = uploads (scenario.state [] ((List.replicate 163849 48).set 549 49)).osd ++ writes
        ∧ writes.length = 256 :=
  have hlen : 163849 ≤ (data_bytes (scenario.state [] (List.replicate 163849 48)).rx).length := by
    rw [scenario_state_rx, data_bytes_zeros, List.length_replicate]
  have hlen2 : 163849 ≤ (data_bytes
      (scenario.state [] ((List.replicate 163849 48).set 549 49)).rx).length := by
    rw [scenario_state_rx, data_bytes_zeros_set, List.length_set, List.length_replicate]
  have hsame : ∀ p, in_trailing_group p = false →
      (data_bytes (scenario.state [] (List.replicate 163849 48)).rx).getD p 0
        = (data_bytes (scenario.state [] ((List.replicate 163849 48).set 549 49)).rx).getD p 0 := by
    intro p hp
    rw [scenario_state_rx, scenario_state_rx, data_bytes_zeros, data_bytes_zeros_set]
    have hne : 549 ≠ p := by
      intro h
      rw [← h] at hp
      exact absurd hp (by decide)
    rw [List.getD_eq_getElem?_getD, List.getD_eq_getElem?_getD, List.getElem?_set_ne hne]
  ⟨hlen, hlen2, hsame,
    (trailing_bytes_not_data scenario.env (scenario.state [] (List.replicate 163849 48))
      (scenario.state [] ((List.replicate 163849 48).set 549 49)) hlen hlen2 hsame).2.2⟩

end console.commands.font

/-! ## An upload that does not get its input -/

namespace console

end console

namespace console.commands.font

end console.commands.font

/-! ## Full command names and the empty token -/

namespace console.commands

theorem name_matches_full (name cmd target : List Char)
    (h : cmd.map stdio.tolower = target) :
    stdio.name_matches name cmd cmd.length
      = ((name.take target.length).map stdio.tolower == target) := by
  have hl : cmd.length = target.length := by rw [← h, List.length_map]
  unfold stdio.name_matches
  rw [List.take_length, h, hl]

theorem values_no_nul (env : Extern) :
    ∀ e ∈ values env, ∀ c ∈ e.cmd_p, c ≠ Char.ofNat 0 := by
  intro e he
  simp only [values, List.mem_cons, List.mem_singleton, List.not_mem_nil, or_false] at he
  rcases he with rfl | rfl | rfl | rfl | rfl | rfl | rfl | rfl <;> dsimp only <;> decide

theorem find_full_name (env : Extern) (e : command_t) (cmd : List Char)
    (he : e ∈ values env) (hcmd : cmd.map stdio.tolower = e.cmd_p) :
    (values env).find? (fun x => stdio.name_matches x.cmd_p cmd cmd.length) = some e := by
  have hm : ∀ name, stdio.name_matches name cmd cmd.length
      = ((name.take e.cmd_p.length).map stdio.tolower == e.cmd_p) :=
    fun name => name_matches_full name cmd e.cmd_p hcmd
  simp only [hm]
  simp only [values, List.mem_cons, List.mem_singleton, List.not_mem_nil, or_false] at he
  rcases he with rfl | rfl | rfl | rfl | rfl | rfl | rfl | rfl <;> rfl

/-- C14 as stated fails for `reboot`: written `ReBoot` with its full length it selects its
own handler, which never returns, so `exec` does not return `true`. -/
theorem exec_full_reboot_never_returns :
    (exec scenario.env "ReBoot".toList 6 (scenario.state "ReBoot".toList [])).isSome = false
    ∧ "ReBoot".toList.map stdio.tolower = reboot.command := by
  decide

/-- C14, amended: each of the eight command names, written in any mix of upper and lower
case and passed with its full length, selects the handler of its own entry (no earlier
entry captures it), and `exec` returns `true` when that handler returns (the handler of
`reboot` never does). -/
theorem exec_full_name (env : Extern) (s : State) (e : command_t) (cmd : List Char)
    (he : e ∈ values env) (hcmd : cmd.map stdio.tolower = e.cmd_p) :
    exec env cmd cmd.length s = (e.exec s).map fun s1 => (true, s1) := by
  have hnul : ∀ c ∈ cmd.take cmd.length, c ≠ Char.ofNat 0 := by
    intro c hc h0
    rw [List.take_length] at hc
    have hmem : stdio.tolower c ∈ e.cmd_p := by
      rw [← hcmd]
      exact List.mem_map_of_mem _ hc
    exact values_no_nul env e he _ hmem ((stdio.tolower_eq_nul c).mpr h0)
  unfold exec
  rw [exec_from_eq cmd cmd.length s (Nat.le_refl _) hnul, find_full_name env e cmd he hcmd]

/-- Instance of `exec_full_name`: `EEPROM` on the line `EEPROM x`. -/
theorem exec_full_name_witness :
    (⟨eeprom.command, eeprom.help, eeprom.exec scenario.env⟩ : command_t) ∈ values scenario.env
    ∧ "EEPROM".toList.map stdio.tolower = eeprom.command
    ∧ exec scenario.env "EEPROM".toList "EEPROM".toList.length
        (scenario.state "EEPROM x".toList [])
      = (eeprom.exec scenario.env (scenario.state "EEPROM x".toList [])).map
          fun s1 => (true, s1) :=
  ⟨by simp [values], by decide,
    exec_full_name scenario.env (scenario.state "EEPROM x".toList [])
      ⟨eeprom.command, eeprom.help, eeprom.exec scenario.env⟩ "EEPROM".toList
      (by simp [values]) (by decide)⟩

end console.commands

/-! ## Setting an option and reading it back -/

namespace console

theorem dropWhile_blank_word (name r : List Char) (hne : name ≠ [])
    (hb : ∀ c ∈ name, c ≠ ' ') :
    (name ++ r).dropWhile (fun c => decide (c = ' ')) = name ++ r := by
  cases name with
  | nil => exact absurd rfl hne
  | cons x xs =>
    have hx : x ≠ ' ' := hb x (List.mem_cons_self x xs)
    simp [List.dropWhile_cons, hx]

theorem dropWhile_word (name r : List Char) (hb : ∀ c ∈ name, c ≠ ' ') :
    (name ++ ' ' :: r).dropWhile (fun c => decide (c ≠ ' ')) = ' ' :: r := by
  induction name with
  | nil => simp [List.dropWhile_cons]
  | cons x xs ih =>
    have hx : x ≠ ' ' := hb x (List.mem_cons_self x xs)
    have hxs : ∀ c ∈ xs, c ≠ ' ' := fun c hc => hb c (List.mem_cons_of_mem x hc)
    simp only [List.cons_append, List.dropWhile_cons, hx, ne_eq, not_false_eq_true,
      decide_True, if_true]
    exact ih hxs

theorem dropWhile_word_end (name : List Char) (hb : ∀ c ∈ name, c ≠ ' ') :
    name.dropWhile (fun c => decide (c ≠ ' ')) = [] := by
  induction name with
  | nil => rfl
  | cons x xs ih =>
    have hx : x ≠ ' ' := hb x (List.mem_cons_self x xs)
    have hxs : ∀ c ∈ xs, c ≠ ' ' := fun c hc => hb c (List.mem_cons_of_mem x hc)
    simp only [List.dropWhile_cons, hx, ne_eq, not_false_eq_true, decide_True, if_true]
    exact ih hxs

/-- Tokens of the line `opt s <name> 1`. -/
theorem argument_set_line (name : List Char) (hne : name ≠ []) (hb : ∀ c ∈ name, c ≠ ' ') :
    argument ("opt s ".toList ++ name ++ " 1".toList) 0
        = some ("opt s ".toList ++ name ++ " 1".toList)
    ∧ argument ("opt s ".toList ++ name ++ " 1".toList) 1
        = some ('s' :: ' ' :: (name ++ " 1".toList))
    ∧ argument ("opt s ".toList ++ name ++ " 1".toList) 2 = some (name ++ " 1".toList)
    ∧ argument ("opt s ".toList ++ name ++ " 1".toList) 3 = some "1".toList := by
  cases name with
  | nil => exact absurd rfl hne
  | cons x xs =>
    have hx : x ≠ ' ' := hb x (List.mem_cons_self x xs)
    simp only [String.toList, List.cons_append, List.nil_append]
    refine ⟨?_, ?_, ?_, ?_⟩
    · simp [argument, List.dropWhile_cons]
    · simp [argument, List.dropWhile_cons]
    · simp [argument, List.dropWhile_cons, hx]
    · have hxs : ∀ c ∈ xs, c ≠ ' ' := fun c hc => hb c (List.mem_cons_of_mem x hc)
      have h3 := dropWhile_word xs ['1'] hxs
      simp only [ne_eq, decide_not] at h3
      simp [argument, List.dropWhile_cons, hx, h3]

/-- Tokens of the line `opt g <name>`. -/
theorem argument_get_line (name : List Char) (hne : name ≠ []) (hb : ∀ c ∈ name, c ≠ ' ') :
    argument ("opt g ".toList ++ name) 0 = some ("opt g ".toList ++ name)
    ∧ argument ("opt g ".toList ++ name) 1 = some ('g' :: ' ' :: name)
    ∧ argument ("opt g ".toList ++ name) 2 = some name := by
  cases name with
  | nil => exact absurd rfl hne
  | cons x xs =>
    have hx : x ≠ ' ' := hb x (List.mem_cons_self x xs)
    simp only [String.toList, List.cons_append, List.nil_append]
    refine ⟨?_, ?_, ?_⟩
    · simp [argument, List.dropWhile_cons]
    · simp [argument, List.dropWhile_cons]
    · simp [argument, List.dropWhile_cons, hx]

theorem process_opt (env : Extern) (s : State) (rest : List Char)
    (h0 : env.argument s.line 0 = some ('o' :: 'p' :: 't' :: ' ' :: rest)) :
    process env s = commands.opt.exec env s := by
  have hs : token_size ('o' :: 'p' :: 't' :: ' ' :: rest) = some 3 := by
    simp [token_size, List.takeWhile_cons]
  rw [process_eq env s _ 3 h0 hs]
  have ht : ∀ name, stdio.name_matches name ('o' :: 'p' :: 't' :: ' ' :: rest) 3
      = stdio.name_matches name "opt".toList 3 := fun _ => rfl
  have h1 : stdio.name_matches commands.font.command "opt".toList 3 = false := by decide
  have h2 : stdio.name_matches commands.reset.command "opt".toList 3 = false := by decide
  have h3 : stdio.name_matches commands.eeprom.command "opt".toList 3 = false := by decide
  have h4 : stdio.name_matches commands.opt.command "opt".toList 3 = true := by decide
  simp only [commands.values, List.find?_cons, ht, h1, h2, h3, h4]

end console

namespace console.commands.opt

theorem display_bool (env : Extern) (o : settings.option_t) (s : State)
    (hty : o.type = .ot_bool) (hval : env.read_bool_option s.eeprom o = true) :
    display env (some o) s
      = { s with tx := (s.tx ++ response_line (env.fmt_p o.addr) "bool".toList
            (stdio.fmt_u (o.size % 256)) o.name_p "1".toList) } := by
  have hv : display_value env o (CONSOLE_UART.send_string (display_head env o) s)
      = "1".toList := by
    unfold display_value
    rw [hty]
    show stdio.fmt_u (if env.read_bool_option s.eeprom o = true then 1 else 0) = _
    rw [hval]
    decide
  have hh : display_head env o = env.fmt_p o.addr ++ "\t(".toList ++ "bool".toList
      ++ ":".toList ++ stdio.fmt_u (o.size % 256) ++ "@)\t".toList ++ o.name_p
      ++ "\t= ".toList := by
    unfold display_head
    rw [hty]
    rfl
  unfold display
  simp only []
  rw [hv, hh, CONSOLE_UART.send_string_send_string]
  simp only [CONSOLE_UART.send_string, response_line, List.append_assoc]

/-- C12: with the console tokenizer of the specification, a name without blanks that the
settings look-up resolves to a boolean option, and a store that reads back `true` after
`true` was written to that option, processing `opt s <name> 1` and then `opt g <name>`
gives twice the response `<addr>\t(bool:<size>@)\t<name>\t= 1`; the response to the
set command shows the value just written, whatever the store held before. -/
theorem set_then_get (env : Extern) (s : State) (name : List Char) (o : settings.option_t)
    (hargs : env.argument = console.argument)
    (hread : env.read_argument (name ++ " 1".toList) = name)
    (hname : name ≠ [] ∧ ∀ c ∈ name, c ≠ ' ')
    (hopt : env.get_option name = some o)
    (hty : o.type = .ot_bool)
    (hround : env.read_bool_option (env.write_bool_option s.eeprom name true) o = true) :
    ∃ s1 s2,
      console.process env { s with line := "opt s ".toList ++ name ++ " 1".toList } = some s1
      ∧ s1.tx = s.tx ++ response_line (env.fmt_p o.addr) "bool".toList
          (stdio.fmt_u (o.size % 256)) o.name_p "1".toList
      ∧ s1.eeprom = env.write_bool_option s.eeprom name true
      ∧ console.process env { s1 with line := "opt g ".toList ++ name } = some s2
      ∧ s2.tx = s1.tx ++ response_line (env.fmt_p o.addr) "bool".toList
          (stdio.fmt_u (o.size % 256)) o.name_p "1".toList
      ∧ s2.eeprom = s1.eeprom := by
  obtain ⟨hne, hb⟩ := hname
  obtain ⟨a0, a1, a2, a3⟩ := console.argument_set_line name hne hb
  obtain ⟨g0, g1, g2⟩ := console.argument_get_line name hne hb
  have hatoi : decide (stdio.atoi "1".toList ≠ 0) = true := by decide
  -- the set command
  have hset : console.process env { s with line := "opt s ".toList ++ name ++ " 1".toList }
      = some (display env (some o)
          { s with
            line := "opt s ".toList ++ name ++ " 1".toList
            eeprom := env.write_bool_option s.eeprom name true }) := by
    rw [console.process_opt env _ ('s' :: ' ' :: (name ++ " 1".toList))
      (by rw [hargs]; exact a0)]
    unfold exec
    simp only [hargs, a1, List.headD_cons]
    simp only [show ¬ ('s' = 'l' ∨ 's' = 'L') by decide, show ¬ ('s' = 'g' ∨ 's' = 'G') by decide,
      show ('s' = 's' ∨ 's' = 'S') by decide, if_true, if_false]
    unfold set
    simp only [hargs, a2, a3]
    simp only [true_or, if_true, hread, hopt, set_value, hty, hatoi]
  -- the get command
  have hget : ∀ s1 : State, console.process env { s1 with line := "opt g ".toList ++ name }
      = some (display env (some o) { s1 with line := "opt g ".toList ++ name }) := by
    intro s1
    rw [console.process_opt env _ ('g' :: ' ' :: name) (by rw [hargs]; exact g0)]
    unfold exec
    simp only [hargs, g1, List.headD_cons]
    simp only [show ¬ ('g' = 'l' ∨ 'g' = 'L') by decide, show ('g' = 'g' ∨ 'g' = 'G') by decide,
      if_true, if_false]
    unfold get
    simp only [hargs, g2]
    simp only [true_or, if_true, hopt]
  have hset2 : console.process env { s with line := "opt s ".toList ++ name ++ " 1".toList }
      = some
        { rx := s.rx
          tx := s.tx ++ response_line (env.fmt_p o.addr) "bool".toList
            (stdio.fmt_u (o.size % 256)) o.name_p "1".toList
          line := "opt s ".toList ++ name ++ " 1".toList
          running := s.running
          eeprom := env.write_bool_option s.eeprom name true
          glyphs := s.glyphs
          osd := s.osd } := by
    rw [hset, display_bool env o _ hty hround]
  have hget2 := hget
    { rx := s.rx
      tx := s.tx ++ response_line (env.fmt_p o.addr) "bool".toList
        (stdio.fmt_u (o.size % 256)) o.name_p "1".toList
      line := "opt s ".toList ++ name ++ " 1".toList
      running := s.running
      eeprom := env.write_bool_option s.eeprom name true
      glyphs := s.glyphs
      osd := s.osd }
  rw [display_bool env o _ hty hround] at hget2
  exact ⟨_, _, hset2, rfl, rfl, hget2, rfl, rfl⟩

end console.commands.opt

namespace console.commands.opt

/-- Instance of `set_then_get`: the boolean option `beep_enabled` of the sample store. -/
theorem set_then_get_witness :
    scenario.env.argument = console.argument
    ∧ scenario.env.read_argument ("beep_enabled".toList ++ " 1".toList) = "beep_enabled".toList
    ∧ ("beep_enabled".toList ≠ [] ∧ ∀ c ∈ "beep_enabled".toList, c ≠ ' ')
    ∧ scenario.env.get_option "beep_enabled".toList
        = some ⟨"beep_enabled".toList, 0, .ot_bool, 1⟩
    ∧ scenario.env.read_bool_option
        (scenario.env.write_bool_option (scenario.state [] []).eeprom "beep_enabled".toList true)
        ⟨"beep_enabled".toList, 0, .ot_bool, 1⟩ = true
    ∧ ∃ s1 s2,
      console.process scenario.env
          { (scenario.state [] []) with
            line := "opt s ".toList ++ "beep_enabled".toList ++ " 1".toList } = some s1
      ∧ s1.tx = (scenario.state [] []).tx ++ response_line (scenario.env.fmt_p 0) "bool".toList
          (stdio.fmt_u (1 % 256)) "beep_enabled".toList "1".toList
      ∧ s1.eeprom
          = scenario.env.write_bool_option (scenario.state [] []).eeprom "beep_enabled".toList true
      ∧ console.process scenario.env
          { s1 with line := "opt g ".toList ++ "beep_enabled".toList } = some s2
      ∧ s2.tx = s1.tx ++ response_line (scenario.env.fmt_p 0) "bool".toList
          (stdio.fmt_u (1 % 256)) "beep_enabled".toList "1".toList
      ∧ s2.eeprom = s1.eeprom :=
  ⟨rfl, by decide, by decide, by decide, by decide,
    set_then_get scenario.env (scenario.state [] []) "beep_enabled".toList
      ⟨"beep_enabled".toList, 0, .ot_bool, 1⟩ rfl (by decide) (by decide) (by decide) rfl
      (by decide)⟩

end console.commands.opt
